import Mathlib

/-!
Verification of the Zigbee flow-monitoring gateway (wfms).

This file gives a shallow embedding, in Lean 4, of the parts of the gateway
that the specification talks about:

* the UART protocol codec of src/wfms/common/proto.py
  (parse_uart_line, make_data_line / make_ack_line / make_info_line,
  the correlation-id map, translate_coordinator_ack, validate_cmd_payload);
* the admission-control rules engine of src/wfms/gateway/rules.py
  (Rules.check_and_mark with its periodic cleanup);
* the ack correlator and the bus-command handler of
  src/wfms/gateway/service.py (AckRouter.wait_for_ack / resolve and
  GatewayService._on_mqtt_message).

Because the codec serializes and parses JSON through the Python json module,
the embedding carries its own model of that module restricted to the fragment
the wire protocol uses: JSON values with integer numerals (the protocol
carries no floating-point literals), strings with the standard escapes
(including the ensure_ascii \uXXXX escapes and surrogate pairs that
json.dumps emits by default), arrays and objects.  json.dumps with
separators=(",", ":") is modelled by dumps below, and json.loads by loads, a
fuel-based recursive-descent scanner.  Python dicts appear as association
lists in insertion order, which is exactly the iteration order the source
relies on; timestamps (time.time()) are modelled as integers, which is
faithful for every ordering comparison the rules engine performs.

Each claim about the program is stated and settled at the end of the file.
-/

namespace Wfms

/-- A JSON value of the fragment the wire protocol uses.  Numbers are the
integer numerals of the protocol (flow, battery, id, thresholds, ...);
objects and arrays are finite lists in insertion order, as Python dicts
iterate. -/
inductive Json where
  | null : Json
  | bool (b : Bool) : Json
  | num (n : Int) : Json
  | str (s : String) : Json
  | arr (elems : List Json) : Json
  | obj (fields : List (String × Json)) : Json

/-! ## Serialization: the model of json.dumps(x, separators=(",", ":")) -/

/-- Lower-case hexadecimal digit, as the \uXXXX escapes of json.dumps use. -/
def hexChar (n : Nat) : Char :=
  if n < 10 then Char.ofNat (48 + n) else Char.ofNat (87 + n)

/-- A complete \uXXXX escape for a code unit below 0x10000. -/
def uEsc (n : Nat) : List Char :=
  ['\\', 'u', hexChar (n / 4096 % 16), hexChar (n / 256 % 16),
   hexChar (n / 16 % 16), hexChar (n % 16)]

/-- How json.dumps (default ensure_ascii=True) writes one character: the
seven short escapes, printable ASCII verbatim, everything else as \uXXXX
escapes, using a surrogate pair above the basic plane. -/
def jesc (c : Char) : List Char :=
  if c = '"' then ['\\', '"']
  else if c = '\\' then ['\\', '\\']
  else if c = '\n' then ['\\', 'n']
  else if c = '\r' then ['\\', 'r']
  else if c = '\t' then ['\\', 't']
  else if c = '\x08' then ['\\', 'b']
  else if c = '\x0c' then ['\\', 'f']
  else if 32 ≤ c.toNat ∧ c.toNat ≤ 126 then [c]
  else if c.toNat < 65536 then uEsc c.toNat
  else uEsc (55296 + (c.toNat - 65536) / 1024) ++ uEsc (56320 + (c.toNat - 65536) % 1024)

/-- The escaped body of a JSON string literal. -/
def strBody (s : String) : List Char := s.data.flatMap jesc

/-- A JSON string literal: quote, escaped body, quote. -/
def strQuoted (s : String) : List Char := '"' :: (strBody s ++ ['"'])

/-- Decimal digits of a natural number, most significant first.  The first
argument is fuel; natDec supplies enough of it for any input. -/
def natDecGo : Nat → Nat → List Char
  | 0, _ => []
  | fuel + 1, n =>
    if n < 10 then [Char.ofNat (48 + n)]
    else natDecGo fuel (n / 10) ++ [Char.ofNat (48 + n % 10)]

/-- Decimal notation of a natural number, as str() writes it. -/
def natDec (n : Nat) : List Char := natDecGo (n + 1) n

/-- Decimal notation of an integer: optional minus sign, then digits. -/
def intDec (i : Int) : List Char :=
  if i < 0 then '-' :: natDec i.natAbs else natDec i.natAbs

mutual

/-- Model of json.dumps(v, separators=(",", ":")), producing characters. -/
def dumpVal : Json → List Char
  | .null => "null".data
  | .bool true => "true".data
  | .bool false => "false".data
  | .num i => intDec i
  | .str s => strQuoted s
  | .arr es => '[' :: (dumpArr es ++ [']'])
  | .obj ms => '\x7b' :: (dumpObj ms ++ ['\x7d'])

/-- Comma-separated array elements (without the brackets). -/
def dumpArr : List Json → List Char
  | [] => []
  | x :: t => dumpVal x ++ dumpArrTl t

/-- The tail of an array body: a comma before every further element. -/
def dumpArrTl : List Json → List Char
  | [] => []
  | x :: t => ',' :: (dumpVal x ++ dumpArrTl t)

/-- Comma-separated object members (without the braces). -/
def dumpObj : List (String × Json) → List Char
  | [] => []
  | (k, v) :: t => strQuoted k ++ ':' :: (dumpVal v ++ dumpObjTl t)

/-- The tail of an object body: a comma before every further member. -/
def dumpObjTl : List (String × Json) → List Char
  | [] => []
  | (k, v) :: t => ',' :: (strQuoted k ++ ':' :: (dumpVal v ++ dumpObjTl t))

end

/-- Model of json.dumps with the compact separators the codec passes. -/
def dumps (j : Json) : String := String.mk (dumpVal j)

/-! ## Parsing: the model of json.loads

A fuel-based recursive-descent scanner over the character list, mirroring
the strict decoder of the json module on the modelled fragment: whitespace
is the four JSON whitespace characters, string escapes are decoded
(including surrogate pairs; lone surrogates and raw control characters are
rejected), numerals are the integer ones, and trailing characters after the
top-level value are an error.  The fuel argument only bounds recursion;
loads hands every call more fuel than the input length, which the
round-trip theorems show is always enough. -/

/-- The whitespace the json decoder skips. -/
def jWs (c : Char) : Bool := c = ' ' || c = '\t' || c = '\n' || c = '\r'

/-- Drop leading JSON whitespace. -/
def wsDrop : List Char → List Char
  | [] => []
  | c :: t => if jWs c then wsDrop t else c :: t

/-- Value of one hexadecimal digit, if the character is one. -/
def hexv (c : Char) : Option Nat :=
  if 48 ≤ c.toNat ∧ c.toNat ≤ 57 then some (c.toNat - 48)
  else if 97 ≤ c.toNat ∧ c.toNat ≤ 102 then some (c.toNat - 87)
  else if 65 ≤ c.toNat ∧ c.toNat ≤ 70 then some (c.toNat - 55)
  else none

/-- Value of a four-digit hexadecimal escape. -/
def hex4v (a b c d : Char) : Option Nat :=
  match hexv a, hexv b, hexv c, hexv d with
  | some x, some y, some z, some w => some (x * 4096 + y * 256 + z * 16 + w)
  | _, _, _, _ => none

/-- What the eight short escapes decode to. -/
def escDecode (e : Char) : Option Char :=
  if e = '"' then some '"'
  else if e = '\\' then some '\\'
  else if e = '/' then some '/'
  else if e = 'n' then some '\n'
  else if e = 'r' then some '\r'
  else if e = 't' then some '\t'
  else if e = 'b' then some '\x08'
  else if e = 'f' then some '\x0c'
  else none

/-- Decode exactly one escape sequence after a backslash: one of the short
escapes, or a \uXXXX escape with surrogate-pair recombination (a lone
surrogate is rejected).  Returns the decoded character and the remaining
input. -/
def jstrEsc1 : List Char → Except String (Char × List Char)
  | [] => .error "Unterminated string"
  | e :: t2 =>
    if e = 'u' then
      match t2 with
      | h1 :: h2 :: h3 :: h4 :: t3 =>
        match hex4v h1 h2 h3 h4 with
        | none => .error "Invalid hex escape"
        | some code =>
          if 55296 ≤ code ∧ code ≤ 56319 then
            match t3 with
            | '\\' :: 'u' :: g1 :: g2 :: g3 :: g4 :: t4 =>
              match hex4v g1 g2 g3 g4 with
              | none => .error "Invalid hex escape"
              | some lo =>
                if 56320 ≤ lo ∧ lo ≤ 57343 then
                  .ok (Char.ofNat (65536 + (code - 55296) * 1024 + (lo - 56320)), t4)
                else .error "Unpaired surrogate"
            | _ => .error "Unpaired surrogate"
          else if 56320 ≤ code ∧ code ≤ 57343 then .error "Unpaired surrogate"
          else .ok (Char.ofNat code, t3)
      | _ => .error "Invalid hex escape"
    else
      match escDecode e with
      | some d => .ok (d, t2)
      | none => .error "Invalid escape"

/-- Scan the body of a string literal after the opening quote, undoing the
escapes; returns the characters and the remaining input.  The fuel only
bounds recursion (one unit per decoded character); the callers hand over
more than the input length. -/
def jstr : Nat → List Char → Except String (List Char × List Char)
  | 0, _ => .error "Recursion limit"
  | _ + 1, [] => .error "Unterminated string"
  | fuel + 1, c :: t =>
    if c = '"' then .ok ([], t)
    else if c = '\\' then
      match jstrEsc1 t with
      | .error e => .error e
      | .ok (d, t2) => (jstr fuel t2).map (fun p => (d :: p.1, p.2))
    else if c.toNat < 32 then .error "Invalid control character"
    else (jstr fuel t).map (fun p => (c :: p.1, p.2))

/-- Accumulated value of a run of decimal digit characters. -/
def digitsVal (l : List Char) : Nat :=
  l.foldl (fun a c => a * 10 + (c.toNat - 48)) 0

/-- Scan an integer numeral beginning at character c (the sign or the first
digit); maximal-munch over the following digits, as the number grammar
matches. -/
def jnum (c : Char) (t : List Char) : Except String (Json × List Char) :=
  if c = '-' then
    let ds := t.takeWhile Char.isDigit
    if ds = [] then .error "Expecting value"
    else .ok (.num (-(digitsVal ds : Int)), t.dropWhile Char.isDigit)
  else
    let ds := (c :: t).takeWhile Char.isDigit
    if ds = [] then .error "Expecting value"
    else .ok (.num (digitsVal ds), (c :: t).dropWhile Char.isDigit)

/-- The value dispatch of the scanner, after leading whitespace: c is the
first character, t the rest.  The continuations scanA / scanO / scanStr
stand for the recursive entries at the remaining fuel. -/
def jscanCore (scanA : List Char → Except String (List Json × List Char))
    (scanO : List Char → Except String (List (String × Json) × List Char))
    (scanStr : List Char → Except String (List Char × List Char))
    (c : Char) (t : List Char) : Except String (Json × List Char) :=
  if c = 'n' then
    match t with
    | 'u' :: 'l' :: 'l' :: r => .ok (.null, r)
    | _ => .error "Expecting value"
  else if c = 't' then
    match t with
    | 'r' :: 'u' :: 'e' :: r => .ok (.bool true, r)
    | _ => .error "Expecting value"
  else if c = 'f' then
    match t with
    | 'a' :: 'l' :: 's' :: 'e' :: r => .ok (.bool false, r)
    | _ => .error "Expecting value"
  else if c = '"' then (scanStr t).map (fun p => (.str (String.mk p.1), p.2))
  else if c = '[' then
    match wsDrop t with
    | [] => .error "Expecting value"
    | d :: r =>
      if d = ']' then .ok (.arr [], r)
      else (scanA (d :: r)).map (fun p => (.arr p.1, p.2))
  else if c = '\x7b' then
    match wsDrop t with
    | [] => .error "Expecting property name"
    | d :: r =>
      if d = '\x7d' then .ok (.obj [], r)
      else (scanO (d :: r)).map (fun p => (.obj p.1, p.2))
  else if c = '-' ∨ c.isDigit then jnum c t
  else .error "Expecting value"

/-- The continuation after one array element: a closing bracket ends the
array, a comma requires more elements (scanned by the continuation). -/
def jscanAEnd (scanA : List Char → Except String (List Json × List Char))
    (v : Json) (r : List Char) : Except String (List Json × List Char) :=
  match wsDrop r with
  | ']' :: r2 => .ok ([v], r2)
  | ',' :: r2 => (scanA r2).map (fun p => (v :: p.1, p.2))
  | _ => .error "Expecting delimiter"

/-- The continuation after one object member: a closing brace ends the
object, a comma requires more members. -/
def jscanOEnd (scanO : List Char → Except String (List (String × Json) × List Char))
    (k0 : List Char) (v : Json) (r3 : List Char) :
    Except String (List (String × Json) × List Char) :=
  match wsDrop r3 with
  | '\x7d' :: r4 => .ok ([(String.mk k0, v)], r4)
  | ',' :: r4 => (scanO r4).map (fun p => ((String.mk k0, v) :: p.1, p.2))
  | _ => .error "Expecting delimiter"

/-- The continuation after an object key: a colon, then the value, then the
member delimiter. -/
def jscanOCore (scanV : List Char → Except String (Json × List Char))
    (scanO : List Char → Except String (List (String × Json) × List Char))
    (k0 : List Char) (r1 : List Char) :
    Except String (List (String × Json) × List Char) :=
  match wsDrop r1 with
  | ':' :: r2 => (scanV r2).bind (fun q => jscanOEnd scanO k0 q.1 q.2)
  | _ => .error "Expecting colon delimiter"

mutual

/-- Scan one JSON value after skipping leading whitespace. -/
def jscan : Nat → List Char → Except String (Json × List Char)
  | 0, _ => .error "Recursion limit"
  | fuel + 1, cs =>
    match wsDrop cs with
    | [] => .error "Expecting value"
    | c :: t => jscanCore (jscanA fuel) (jscanO fuel) (jstr fuel) c t

/-- Scan one or more comma-separated array elements and the closing bracket
(the empty array is handled by the dispatch before calling here). -/
def jscanA : Nat → List Char → Except String (List Json × List Char)
  | 0, _ => .error "Recursion limit"
  | fuel + 1, cs => (jscan fuel cs).bind (fun p => jscanAEnd (jscanA fuel) p.1 p.2)

/-- Scan one or more comma-separated object members and the closing brace
(the empty object is handled by the dispatch before calling here). -/
def jscanO : Nat → List Char → Except String (List (String × Json) × List Char)
  | 0, _ => .error "Recursion limit"
  | fuel + 1, cs =>
    match wsDrop cs with
    | '"' :: t => (jstr fuel t).bind (fun q => jscanOCore (jscan fuel) (jscanO fuel) q.1 q.2)
    | _ => .error "Expecting property name"

end

/-- Model of json.loads: scan one value and require only whitespace after
it.  Total: every input yields a value or an error message, never an
exception. -/
def loads (s : String) : Except String Json :=
  match jscan (s.data.length + 1) s.data with
  | .error e => .error e
  | .ok (v, r) => if wsDrop r = [] then .ok v else .error "Extra data"

/-! ## Association lists: Python dict operations

Python dicts iterate in insertion order and hold each key once; the source
relies on both.  They are embedded as association lists: alookup is
membership test plus indexing, aupdate is item assignment (overwrite in
place, else append), aremove is deletion. -/

/-- Dict lookup: the value stored at a key, if present. -/
def alookup {α : Type} : List (String × α) → String → Option α
  | [], _ => none
  | (k0, v0) :: t, k => if k0 = k then some v0 else alookup t k

/-- Dict item assignment: overwrite the entry in place, else append. -/
def aupdate {α : Type} : List (String × α) → String → α → List (String × α)
  | [], k, v => [(k, v)]
  | (k0, v0) :: t, k, v =>
    if k0 = k then (k, v) :: t else (k0, v0) :: aupdate t k v

/-- Dict deletion of a key (dict keys are unique, so a filter). -/
def aremove {α : Type} (l : List (String × α)) (k : String) : List (String × α) :=
  l.filter (fun e => decide (e.1 ≠ k))

/-! ## The UART protocol codec (src/wfms/common/proto.py) -/

/-- The whitespace str.strip() removes (the ASCII part; the lines the
transport hands over are ASCII-framed). -/
def pyWs (c : Char) : Bool :=
  c = ' ' || c = '\t' || c = '\n' || c = '\r' || c = '\x0b' || c = '\x0c'

/-- Model of str.strip(): drop leading and trailing whitespace. -/
def pyStrip (l : List Char) : List Char :=
  ((l.dropWhile pyWs).reverse.dropWhile pyWs).reverse

/-- Whether the first list is an initial segment of the second
(str.startswith). -/
def leadsWith : List Char → List Char → Bool
  | [], _ => true
  | _ :: _, [] => false
  | p :: ps, c :: cs => p = c && leadsWith ps cs

/-- The prefix-to-type table of parse_uart_line, in the insertion order of
its prefix_map dict. -/
def tagTable : List (String × String) :=
  [("@DATA", "DATA"), ("@ACK", "ACK"), ("@CMD", "CMD"), ("@LOG", "LOG"), ("@INFO", "INFO")]

/-- The first table entry whose tag starts the line, as the for loop of
parse_uart_line finds it. -/
def findTag (l : List Char) : Option (String × String) :=
  tagTable.find? (fun pr => leadsWith pr.1.data l)

/-- The error payload dict of parse_uart_line. -/
def errPayload (e raw : String) : Json :=
  .obj [("error", .str e), ("raw", .str raw)]

/-- Model of parse_uart_line: strip the line, match a tag prefix, strip and
parse the JSON part, classifying every failure as an ERR frame. -/
def parse_uart_line (line : String) : String × Json :=
  let l := pyStrip line.data
  if l = [] then ("ERR", errPayload "empty_line" "")
  else
    match findTag l with
    | none => ("ERR", errPayload "unknown_prefix" (String.mk l))
    | some pr =>
      let jp := pyStrip (l.drop pr.1.length)
      if jp = [] then ("ERR", errPayload "missing_payload" (String.mk l))
      else
        match loads (String.mk jp) with
        | .ok (.obj ms) => (pr.2, .obj ms)
        | .ok _ => ("ERR", errPayload "payload_not_dict" (String.mk l))
        | .error e => ("ERR", errPayload ("json_parse_error: " ++ e) (String.mk l))

/-- Model of make_data_line: tag, one space, compact JSON, newline. -/
def make_data_line (p : List (String × Json)) : String :=
  "@DATA " ++ dumps (.obj p) ++ "\n"

/-- Model of make_ack_line. -/
def make_ack_line (p : List (String × Json)) : String :=
  "@ACK " ++ dumps (.obj p) ++ "\n"

/-- Model of make_info_line. -/
def make_info_line (p : List (String × Json)) : String :=
  "@INFO " ++ dumps (.obj p) ++ "\n"

/-! ## The correlation-id map (_cid_to_id and _id_counter in proto.py) -/

/-- The module-level mapping state: the dict from correlation id to numeric
id (insertion order preserved) and the next id to hand out. -/
structure CidMap where
  entries : List (String × Nat)
  counter : Nat
deriving DecidableEq

/-- The initial mapping state (_cid_to_id = empty, _id_counter = 1). -/
def cidMapInit : CidMap := ⟨[], 1⟩

/-- Model of _cid_to_numeric_id: return the stored id, or assign the next
counter value to an unseen cid. -/
def cid_to_numeric_id (cid : String) (m : CidMap) : Nat × CidMap :=
  match alookup m.entries cid with
  | some i => (i, m)
  | none => (m.counter, ⟨m.entries ++ [(cid, m.counter)], m.counter + 1⟩)

/-- Model of _numeric_id_to_cid: scan the dict in insertion order for the
entry holding the numeric id. -/
def numeric_id_to_cid (nid : Int) (m : CidMap) : Option String :=
  (m.entries.find? (fun e => (e.2 : Int) == nid)).map (fun e => e.1)

/-- Decimal string of an integer, as the f-string id_{numeric_id} formats
an int. -/
def intDecStr (i : Int) : String := String.mk (intDec i)

/-- Model of translate_coordinator_ack: read id / ok / msg with their
defaults, recover the caller cid from the numeric id (falling back to a
synthesized id_N), and carry over exactly the five optional controller
fields.  The f-string fallback is modelled for integer ids; the wire
protocol types id as an integer, and the claims are stated on that
fragment. -/
def translate_coordinator_ack (m : CidMap) (coord_ack : List (String × Json)) :
    List (String × Json) :=
  let nidJ : Json := (alookup coord_ack "id").getD (.num 0)
  let okJ : Json := (alookup coord_ack "ok").getD (.bool false)
  let msgJ : Json := (alookup coord_ack "msg").getD (.str "")
  let found : Option String :=
    match nidJ with
    | .num n => numeric_id_to_cid n m
    | _ => none
  let cid : String :=
    match found, nidJ with
    | some c, _ => c
    | none, .num n => "id_" ++ intDecStr n
    | none, other => "id_" ++ dumps other
  [("cid", Json.str cid), ("ok", okJ), ("reason", msgJ)] ++
    (["valve", "mode", "valve_path", "valve_known", "valve_node_id"].filterMap
      (fun k => (alookup coord_ack k).map (fun v => (k, v))))

/-- Model of validate_cmd_payload: require a truthy string cid and a value
equal to ON or OFF. -/
def validate_cmd_payload (p : List (String × Json)) : Bool × String :=
  match alookup p "cid" with
  | some (.str c) =>
    if c = "" then (false, "missing_cid")
    else
      match alookup p "value" with
      | some (.str v) =>
        if v = "ON" ∨ v = "OFF" then (true, "") else (false, "invalid_value")
      | _ => (false, "invalid_value")
  | _ => (false, "missing_cid")

/-! ## The rules engine (src/wfms/gateway/rules.py)

check_and_mark runs entirely under one mutex, so one call is one atomic
step on the rules state; the embedding is that step as a function of the
pre-state and the sampled clock.  Timestamps are integers (time.time() is a
float in the source; every use is an ordering comparison, for which the
integer-valued clock is faithful). -/

/-- RulesConfig of rules.py. -/
structure RulesConfig where
  lock : Bool
  cooldown_user_s : Int
  cooldown_global_s : Int
  dedupe_ttl_s : Int
deriving DecidableEq

/-- The mutable state of the Rules object: per-user last-command times, the
global last-command time, the seen-cid expiry map, and the last cleanup
time. -/
structure RulesState where
  user_last_cmd : List (String × Int)
  global_last_cmd : Int
  seen_cids : List (String × Int)
  last_cleanup : Int
deriving DecidableEq

/-- The fixed cleanup interval (30 seconds). -/
def cleanupInterval : Int := 30

/-- Model of _maybe_cleanup: at most once per interval, drop expired cids
and users idle longer than ten cooldowns. -/
def maybe_cleanup (cfg : RulesConfig) (st : RulesState) (now : Int) : RulesState :=
  if now - st.last_cleanup < cleanupInterval then st
  else
    { user_last_cmd :=
        st.user_last_cmd.filter (fun e => decide (now - cfg.cooldown_user_s * 10 ≤ e.2))
      global_last_cmd := st.global_last_cmd
      seen_cids := st.seen_cids.filter (fun e => decide (now < e.2))
      last_cleanup := now }

/-- The admission step of check_and_mark: record the cid with its expiry
and advance both last-command timestamps. -/
def rulesMark (cfg : RulesConfig) (st : RulesState) (now : Int) (cid user : String) :
    (Bool × String) × RulesState :=
  ((true, ""),
   { user_last_cmd := aupdate st.user_last_cmd user now
     global_last_cmd := now
     seen_cids := aupdate st.seen_cids cid (now + cfg.dedupe_ttl_s)
     last_cleanup := st.last_cleanup })

/-- The global-cooldown gate of check_and_mark. -/
def rulesGlobalGate (cfg : RulesConfig) (st : RulesState) (now : Int) (cid user : String) :
    (Bool × String) × RulesState :=
  if now - st.global_last_cmd < cfg.cooldown_global_s then ((false, "cooldown_global"), st)
  else rulesMark cfg st now cid user

/-- The per-user-cooldown gate of check_and_mark. -/
def rulesUserGate (cfg : RulesConfig) (st : RulesState) (now : Int) (cid user : String) :
    (Bool × String) × RulesState :=
  match alookup st.user_last_cmd user with
  | some t =>
    if now - t < cfg.cooldown_user_s then ((false, "cooldown_user"), st)
    else rulesGlobalGate cfg st now cid user
  | none => rulesGlobalGate cfg st now cid user

/-- The duplicate-cid gate of check_and_mark: reject while the recorded
expiry lies in the future, fall through otherwise. -/
def rulesDupGate (cfg : RulesConfig) (st : RulesState) (now : Int) (cid user : String) :
    (Bool × String) × RulesState :=
  match alookup st.seen_cids cid with
  | some exp =>
    if now < exp then ((false, "duplicate_cid"), st)
    else rulesUserGate cfg st now cid user
  | none => rulesUserGate cfg st now cid user

/-- Model of Rules.check_and_mark: one atomic admission check, in the order
of the source (cleanup, lock, duplicate cid, user cooldown, global
cooldown, then mark). -/
def check_and_mark (cfg : RulesConfig) (st₀ : RulesState) (now : Int) (cid user : String) :
    (Bool × String) × RulesState :=
  let st := maybe_cleanup cfg st₀ now
  if cfg.lock then ((false, "locked"), st)
  else rulesDupGate cfg st now cid user

/-! ## The ack correlator and the bus-command handler
(src/wfms/gateway/service.py)

wait_for_ack registers a waiter under the correlator mutex, blocks on an
event with a timeout, and always pops its entry before returning.  The
embedding sequentializes one wait: the arrival argument says whether a
matching resolve ran before the timeout (the only interleaving that changes
the outcome), and the function performs, in program order, the
registration, the optional resolution, and the pop. -/

/-- An ack payload as resolve receives it (a bus-facing dict). -/
abbrev AckMsg := List (String × Json)

/-- Model of AckRouter.resolve: if a waiter is registered for the cid,
store the payload in its entry (and set its event); report whether one
was. -/
def ack_router_resolve (pend : List (String × Option AckMsg)) (cid : String) (a : AckMsg) :
    Bool × List (String × Option AckMsg) :=
  match alookup pend cid with
  | some _ => (true, aupdate pend cid (some a))
  | none => (false, pend)

/-- Model of AckRouter.wait_for_ack for one command: register the waiter,
let a matching resolve run iff one arrives in time, then pop the entry and
return the stored payload (or none on timeout). -/
def wait_for_ack (pend : List (String × Option AckMsg)) (cid : String)
    (arrival : Option AckMsg) : Option AckMsg × List (String × Option AckMsg) :=
  let p1 := aupdate pend cid none
  let p2 := match arrival with
    | some a => (ack_router_resolve p1 cid a).2
    | none => p1
  let entry := alookup p2 cid
  let p3 := aremove p2 cid
  match arrival, entry with
  | some _, some res => (res, p3)
  | _, _ => (none, p3)

/-- The StateCache record of service.py (flow is a float in the source;
the integer-valued fragment is modelled, which the claims never exercise).
-/
structure StateCache where
  flow : Int
  battery : Int
  valve : String
  mode : String
  valve_path : String
  valve_known : Bool
  valve_node_id : String
  tx_pending : Bool
  updated_at : Int
deriving DecidableEq

/-- Python truthiness of a JSON-shaped value, as the if ok: test applies
it. -/
def jsonTruthy : Json → Bool
  | .null => false
  | .bool b => b
  | .num n => n != 0
  | .str s => s != ""
  | .arr l => !l.isEmpty
  | .obj l => !l.isEmpty

/-- One bus publication the handler can emit: the retained state snapshot
(StateCache.to_dict) or a command acknowledgment
(cid / ok / reason / ts). -/
inductive Pub where
  | statePub (cache : StateCache) : Pub
  | ackPub (cid : Json) (ok : Json) (reason : Json) (ts : Int) : Pub

/-- Everything one run of the bus-command handler owns and may change:
the publications it emitted in order, the state cache, the rules state,
the correlator table, and the correlation-id map. -/
structure HandlerOut where
  pubs : List Pub
  cache : StateCache
  rules : RulesState
  pend : List (String × Option AckMsg)
  cids : CidMap

/-- Model of GatewayService._on_mqtt_message after JSON decoding: decoded
is the parsed command dict (none for malformed JSON, which the source
silently drops), writeOk is the uart.write_line outcome, and arrival is
the ack, if any, that resolve delivers before the timeout.  The clock now
stands for each now_ts()/time.time() sample of the run. -/
def on_mqtt_message (cfg : RulesConfig) (now : Int) (rs : RulesState) (cache : StateCache)
    (cm : CidMap) (pend : List (String × Option AckMsg))
    (decoded : Option (List (String × Json))) (writeOk : Bool) (arrival : Option AckMsg) :
    HandlerOut :=
  match decoded with
  | none => ⟨[], cache, rs, pend, cm⟩
  | some payload =>
    let vr := validate_cmd_payload payload
    if vr.1 = false then
      ⟨[.ackPub ((alookup payload "cid").getD (.str "unknown")) (.bool false) (.str vr.2) now],
       cache, rs, pend, cm⟩
    else
      let cid : String := match alookup payload "cid" with | some (.str c) => c | _ => ""
      let value : String := match alookup payload "value" with | some (.str v) => v | _ => ""
      let user : String := match alookup payload "by" with | some (.str u) => u | _ => "anonymous"
      let rres := check_and_mark cfg rs now cid user
      if rres.1.1 = false then
        ⟨[.ackPub (.str cid) (.bool false) (.str rres.1.2) now], cache, rres.2, pend, cm⟩
      else
        let cm2 := (cid_to_numeric_id cid cm).2
        if writeOk = false then
          ⟨[.ackPub (.str cid) (.bool false) (.str "uart_write_failed") now],
           cache, rres.2, pend, cm2⟩
        else
          let w := wait_for_ack pend cid arrival
          match w.1 with
          | none =>
            ⟨[.ackPub (.str cid) (.bool false) (.str "timeout") now],
             cache, rres.2, w.2, cm2⟩
          | some ackp =>
            let okJ := (alookup ackp "ok").getD (.bool false)
            let reasonJ := (alookup ackp "reason").getD (.str "")
            if jsonTruthy okJ then
              let cache2 := { cache with valve := value, updated_at := now }
              ⟨[.statePub cache2, .ackPub (.str cid) okJ reasonJ now],
               cache2, rres.2, w.2, cm2⟩
            else
              ⟨[.ackPub (.str cid) okJ reasonJ now], cache, rres.2, w.2, cm2⟩

/-- Whether a publication is an acknowledgment (a message on the ack
topic). -/
def isAckPub : Pub → Bool
  | .ackPub _ _ _ _ => true
  | .statePub _ => false

/-- A remainder that cannot extend a numeral: empty, or starting with a
character that is no digit.  Every delimiter a value is followed by inside
a frame qualifies. -/
def numTerm (l : List Char) : Prop := ∀ c ∈ l.head?, Char.isDigit c = false

/-! # Theorems

Everything below is proof: general lemmas on the dict operations, the
codec round-trip development, and then one theorem (plus witness or
counterexample) per claim. -/

/-! ## Dict operation lemmas -/

theorem alookup_aremove_self {α : Type} (l : List (String × α)) (k : String) :
    alookup (aremove l k) k = none := by
  induction l with
  | nil => rfl
  | cons e t ih =>
    by_cases h : e.1 = k
    · simpa [aremove, List.filter, h] using ih
    · simpa [aremove, List.filter, h, alookup] using ih

theorem alookup_aupdate_self {α : Type} (l : List (String × α)) (k : String) (v : α) :
    alookup (aupdate l k v) k = some v := by
  induction l with
  | nil => simp [aupdate, alookup]
  | cons e t ih =>
    by_cases h : e.1 = k
    · obtain ⟨k0, v0⟩ := e
      simp only at h
      simp [aupdate, alookup, h]
    · obtain ⟨k0, v0⟩ := e
      simp only at h
      simp [aupdate, alookup, h, ih]

theorem alookup_aupdate_other {α : Type} (l : List (String × α)) (k k1 : String) (v : α)
    (hne : k1 ≠ k) : alookup (aupdate l k v) k1 = alookup l k1 := by
  have hne2 : k ≠ k1 := Ne.symm hne
  induction l with
  | nil => simp [aupdate, alookup, hne2]
  | cons e t ih =>
    obtain ⟨k0, v0⟩ := e
    by_cases h : k0 = k
    · subst h
      simp [aupdate, alookup, hne2]
    · simp [aupdate, alookup, h, ih]

theorem alookup_append_right {α : Type} (l1 l2 : List (String × α)) (k : String)
    (h : alookup l1 k = none) : alookup (l1 ++ l2) k = alookup l2 k := by
  induction l1 with
  | nil => simp
  | cons e t ih =>
    obtain ⟨k0, v0⟩ := e
    by_cases hk : k0 = k
    · simp [alookup, hk] at h
    · simp only [alookup, hk, if_false] at h
      simpa [alookup, hk] using ih h

theorem alookup_append_left {α : Type} (l1 l2 : List (String × α)) (k : String) (v : α)
    (h : alookup l1 k = some v) : alookup (l1 ++ l2) k = some v := by
  induction l1 with
  | nil => simp [alookup] at h
  | cons e t ih =>
    obtain ⟨k0, v0⟩ := e
    by_cases hk : k0 = k
    · simp only [alookup, hk, if_true] at h
      simp [alookup, hk, h]
    · simp only [alookup, hk, if_false] at h
      simpa [alookup, hk] using ih h

theorem alookup_mem {α : Type} (l : List (String × α)) (k : String) (v : α)
    (h : alookup l k = some v) : (k, v) ∈ l := by
  induction l with
  | nil => simp [alookup] at h
  | cons e t ih =>
    obtain ⟨k0, v0⟩ := e
    by_cases hk : k0 = k
    · subst hk
      simp only [alookup, if_true] at h
      simp only [Option.some.injEq] at h
      subst h
      exact List.mem_cons_self _ _
    · simp only [alookup, hk, if_false] at h
      exact List.mem_cons_of_mem _ (ih h)

/-! ## Decimal numerals -/

theorem digitChar_toNat (d : Nat) (h : d < 10) : (Char.ofNat (48 + d)).toNat = 48 + d := by
  interval_cases d <;> decide

theorem digitChar_isDigit (d : Nat) (h : d < 10) : (Char.ofNat (48 + d)).isDigit = true := by
  interval_cases d <;> decide

theorem natDecGo_digits (fuel : Nat) :
    ∀ n, n < fuel → ∀ c ∈ natDecGo fuel n, c.isDigit = true := by
  induction fuel with
  | zero => intro n h; omega
  | succ fuel ih =>
    intro n h c hc
    by_cases h10 : n < 10
    · simp only [natDecGo, if_pos h10, List.mem_singleton] at hc
      subst hc
      exact digitChar_isDigit n h10
    · simp only [natDecGo, if_neg h10, List.mem_append, List.mem_singleton] at hc
      rcases hc with hc | hc
      · exact ih (n / 10) (by omega) c hc
      · subst hc
        exact digitChar_isDigit (n % 10) (by omega)

theorem natDecGo_ne_nil (fuel n : Nat) (h : n < fuel) : natDecGo fuel n ≠ [] := by
  cases fuel with
  | zero => omega
  | succ fuel =>
    by_cases h10 : n < 10
    · simp [natDecGo, h10]
    · simp [natDecGo, h10]

theorem natDecGo_val (fuel : Nat) :
    ∀ n a, n < fuel →
      (natDecGo fuel n).foldl (fun x c => x * 10 + (c.toNat - 48)) a
        = a * 10 ^ (natDecGo fuel n).length + n := by
  induction fuel with
  | zero => intro n a h; omega
  | succ fuel ih =>
    intro n a h
    by_cases h10 : n < 10
    · simp only [natDecGo, if_pos h10, List.foldl_cons, List.foldl_nil, List.length_singleton]
      rw [digitChar_toNat n h10]
      omega
    · simp only [natDecGo, if_neg h10, List.foldl_append, List.foldl_cons, List.foldl_nil,
        List.length_append, List.length_singleton]
    -- expose the recursive digits of n / 10
      rw [ih (n / 10) a (by omega), digitChar_toNat (n % 10) (by omega)]
      rw [pow_succ]
      have hsplit : n / 10 * 10 + n % 10 = n := by omega
      set L := (natDecGo fuel (n / 10)).length
      set P := 10 ^ L
      have hdig : 48 + n % 10 - 48 = n % 10 := by omega
      rw [hdig]
      have hring : (a * P + n / 10) * 10 + n % 10 = a * (P * 10) + (n / 10 * 10 + n % 10) := by
        ring
      rw [hring, hsplit]

theorem natDec_digits (n : Nat) : ∀ c ∈ natDec n, c.isDigit = true :=
  natDecGo_digits (n + 1) n (by omega)

theorem natDec_ne_nil (n : Nat) : natDec n ≠ [] :=
  natDecGo_ne_nil (n + 1) n (by omega)

theorem digitsVal_natDec (n : Nat) : digitsVal (natDec n) = n := by
  have := natDecGo_val (n + 1) n 0 (by omega)
  simpa [digitsVal, natDec] using this

theorem takeWhile_digits_append (ds rest : List Char)
    (hds : ∀ c ∈ ds, Char.isDigit c = true) (hrest : numTerm rest) :
    (ds ++ rest).takeWhile Char.isDigit = ds ∧
      (ds ++ rest).dropWhile Char.isDigit = rest := by
  induction ds with
  | nil =>
    simp only [List.nil_append]
    cases rest with
    | nil => simp
    | cons c t =>
      have hc : Char.isDigit c = false := hrest c (by simp)
      simp [List.takeWhile_cons, List.dropWhile_cons, hc]
  | cons c t ih =>
    have hc : Char.isDigit c = true := hds c (by simp)
    have ht := ih (fun x hx => hds x (by simp [hx]))
    simp [List.takeWhile_cons, List.dropWhile_cons, hc, ht.1, ht.2]

/-! ## Character classes -/

theorem char_valid_range (c : Char) :
    c.toNat < 1114112 ∧ ¬(55296 ≤ c.toNat ∧ c.toNat ≤ 57343) := by
  have hv := c.valid
  simp only [UInt32.isValidChar, Nat.isValidChar] at hv
  have he : c.toNat = c.val.toNat := rfl
  rw [he]
  rcases hv with h | h
  · constructor <;> omega
  · constructor <;> omega

theorem isDigit_toNat (c : Char) (h : c.isDigit = true) :
    48 ≤ c.toNat ∧ c.toNat ≤ 57 := by
  simpa [Char.isDigit] using h

/-- A character whose code differs from that of another is another
character. -/
theorem char_ne_of_lo (c d : Char) (h : 48 ≤ c.toNat ∧ c.toNat ≤ 57)
    (hd : ¬(48 ≤ d.toNat ∧ d.toNat ≤ 57)) : c ≠ d := by
  intro he
  rw [he] at h
  exact hd h

/-- A decimal digit is none of the characters the scanner dispatches on,
and no whitespace. -/
theorem digit_not_special (c : Char) (h : c.isDigit = true) :
    c ≠ 'n' ∧ c ≠ 't' ∧ c ≠ 'f' ∧ c ≠ '"' ∧ c ≠ '[' ∧ c ≠ '\x7b' ∧ c ≠ '-' ∧
      jWs c = false ∧ c ≠ ']' ∧ c ≠ '\x7d' ∧ c ≠ ',' := by
  have hb := isDigit_toNat c h
  refine ⟨char_ne_of_lo c _ hb (by decide), char_ne_of_lo c _ hb (by decide),
    char_ne_of_lo c _ hb (by decide), char_ne_of_lo c _ hb (by decide),
    char_ne_of_lo c _ hb (by decide), char_ne_of_lo c _ hb (by decide),
    char_ne_of_lo c _ hb (by decide), ?_,
    char_ne_of_lo c _ hb (by decide), char_ne_of_lo c _ hb (by decide),
    char_ne_of_lo c _ hb (by decide)⟩
  have h1 : c ≠ ' ' := char_ne_of_lo c _ hb (by decide)
  have h2 : c ≠ '\t' := char_ne_of_lo c _ hb (by decide)
  have h3 : c ≠ '\n' := char_ne_of_lo c _ hb (by decide)
  have h4 : c ≠ '\r' := char_ne_of_lo c _ hb (by decide)
  simp [jWs, h1, h2, h3, h4]

/-- wsDrop leaves a list alone when its head is no whitespace. -/
theorem wsDrop_cons_not (c : Char) (t : List Char) (h : jWs c = false) :
    wsDrop (c :: t) = c :: t := by
  simp [wsDrop, h]

/-! ## Hexadecimal escapes -/

theorem hexv_hexChar (d : Nat) (h : d < 16) : hexv (hexChar d) = some d := by
  interval_cases d <;> decide

theorem hex4v_parts (n : Nat) (h : n < 65536) :
    hex4v (hexChar (n / 4096 % 16)) (hexChar (n / 256 % 16))
      (hexChar (n / 16 % 16)) (hexChar (n % 16)) = some n := by
  rw [hex4v, hexv_hexChar _ (by omega), hexv_hexChar _ (by omega),
    hexv_hexChar _ (by omega), hexv_hexChar _ (by omega)]
  simp only [Option.some.injEq]
  omega

/-! ## String escape round trip -/

/-- One-step unfolding of jstrEsc1 on a cons cell (definitional). -/
theorem jstrEsc1_cons (e : Char) (t2 : List Char) :
    jstrEsc1 (e :: t2) =
      (if e = 'u' then
        match t2 with
        | h1 :: h2 :: h3 :: h4 :: t3 =>
          match hex4v h1 h2 h3 h4 with
          | none => .error "Invalid hex escape"
          | some code =>
            if 55296 ≤ code ∧ code ≤ 56319 then
              match t3 with
              | '\\' :: 'u' :: g1 :: g2 :: g3 :: g4 :: t4 =>
                match hex4v g1 g2 g3 g4 with
                | none => .error "Invalid hex escape"
                | some lo =>
                  if 56320 ≤ lo ∧ lo ≤ 57343 then
                    .ok (Char.ofNat (65536 + (code - 55296) * 1024 + (lo - 56320)), t4)
                  else .error "Unpaired surrogate"
              | _ => .error "Unpaired surrogate"
            else if 56320 ≤ code ∧ code ≤ 57343 then .error "Unpaired surrogate"
            else .ok (Char.ofNat code, t3)
        | _ => .error "Invalid hex escape"
      else
        match escDecode e with
        | some d => .ok (d, t2)
        | none => .error "Invalid escape") := rfl

/-- A short escape decodes to its character. -/
theorem jstrEsc1_short (e d : Char) (t2 : List Char) (hu : e ≠ 'u')
    (hd : escDecode e = some d) : jstrEsc1 (e :: t2) = .ok (d, t2) := by
  rw [jstrEsc1_cons, if_neg hu, hd]

/-- One-step unfolding of a \uXXXX escape. -/
theorem jstrEsc1_u (a b c d : Char) (t3 : List Char) :
    jstrEsc1 ('u' :: a :: b :: c :: d :: t3) =
      (match hex4v a b c d with
      | none => .error "Invalid hex escape"
      | some code =>
        if 55296 ≤ code ∧ code ≤ 56319 then
          match t3 with
          | '\\' :: 'u' :: g1 :: g2 :: g3 :: g4 :: t4 =>
            match hex4v g1 g2 g3 g4 with
            | none => .error "Invalid hex escape"
            | some lo =>
              if 56320 ≤ lo ∧ lo ≤ 57343 then
                .ok (Char.ofNat (65536 + (code - 55296) * 1024 + (lo - 56320)), t4)
              else .error "Unpaired surrogate"
          | _ => .error "Unpaired surrogate"
        else if 56320 ≤ code ∧ code ≤ 57343 then .error "Unpaired surrogate"
        else .ok (Char.ofNat code, t3)) := by
  rw [jstrEsc1_cons, if_pos rfl]

/-- A basic-plane \uXXXX escape decodes to its character. -/
theorem jstrEsc1_bmp (a b c d : Char) (t3 : List Char) (code : Nat)
    (hx : hex4v a b c d = some code)
    (hs1 : ¬(55296 ≤ code ∧ code ≤ 56319)) (hs2 : ¬(56320 ≤ code ∧ code ≤ 57343)) :
    jstrEsc1 ('u' :: a :: b :: c :: d :: t3) = .ok (Char.ofNat code, t3) := by
  rw [jstrEsc1_u]
  split
  · rename_i hnone
    rw [hx] at hnone
    simp at hnone
  · rename_i code0 hsome
    rw [hx] at hsome
    injection hsome with he
    subst he
    rw [if_neg hs1, if_neg hs2]

/-- A surrogate pair of \uXXXX escapes decodes to its astral character. -/
theorem jstrEsc1_pair (a b c d g1 g2 g3 g4 : Char) (t4 : List Char) (code lo : Nat)
    (hx : hex4v a b c d = some code) (hq : 55296 ≤ code ∧ code ≤ 56319)
    (hy : hex4v g1 g2 g3 g4 = some lo) (hr : 56320 ≤ lo ∧ lo ≤ 57343) :
    jstrEsc1 ('u' :: a :: b :: c :: d :: '\\' :: 'u' :: g1 :: g2 :: g3 :: g4 :: t4) =
      .ok (Char.ofNat (65536 + (code - 55296) * 1024 + (lo - 56320)), t4) := by
  rw [jstrEsc1_u]
  split
  · rename_i hnone
    rw [hx] at hnone
    simp at hnone
  · rename_i code0 hsome
    rw [hx] at hsome
    injection hsome with he
    subst he
    rw [if_pos hq]
    show (match hex4v g1 g2 g3 g4 with
      | none => (Except.error "Invalid hex escape" : Except String (Char × List Char))
      | some lo =>
        if 56320 ≤ lo ∧ lo ≤ 57343 then
          Except.ok (Char.ofNat (65536 + (code - 55296) * 1024 + (lo - 56320)), t4)
        else Except.error "Unpaired surrogate") = _
    split
    · rename_i hnone2
      rw [hy] at hnone2
      simp at hnone2
    · rename_i lo0 hsome2
      rw [hy] at hsome2
      injection hsome2 with he2
      subst he2
      rw [if_pos hr]

/-- One-step unfolding of jstr at successor fuel (definitional). -/
theorem jstr_succ (fuel : Nat) (c : Char) (t : List Char) :
    jstr (fuel + 1) (c :: t) =
      (if c = '"' then .ok ([], t)
      else if c = '\\' then
        match jstrEsc1 t with
        | .error e => .error e
        | .ok (d, t2) => (jstr fuel t2).map (fun p => (d :: p.1, p.2))
      else if c.toNat < 32 then .error "Invalid control character"
      else (jstr fuel t).map (fun p => (c :: p.1, p.2))) := rfl

/-- Scanning a quote closes the string. -/
theorem jstr_quote (fuel : Nat) (t : List Char) :
    jstr (fuel + 1) ('"' :: t) = .ok ([], t) := by
  rw [jstr_succ, if_pos rfl]

/-- Scanning an unescaped printable character keeps it. -/
theorem jstr_plain (fuel : Nat) (c : Char) (t : List Char) (h1 : c ≠ '"')
    (h2 : c ≠ '\\') (h3 : ¬(c.toNat < 32)) :
    jstr (fuel + 1) (c :: t) = (jstr fuel t).map (fun p => (c :: p.1, p.2)) := by
  rw [jstr_succ, if_neg h1, if_neg h2, if_neg h3]

/-- Scanning a backslash hands over to the escape decoder. -/
theorem jstr_esc (fuel : Nat) (t : List Char) :
    jstr (fuel + 1) ('\\' :: t) =
      (match jstrEsc1 t with
      | .error e => .error e
      | .ok (d, t2) => (jstr fuel t2).map (fun p => (d :: p.1, p.2))) := by
  rw [jstr_succ, if_neg (by decide : ¬(('\\' : Char) = '"')), if_pos rfl]

theorem jstr_jesc (c : Char) (rest : List Char) (fuel : Nat) :
    jstr (fuel + 1) (jesc c ++ rest) = (jstr fuel rest).map (fun p => (c :: p.1, p.2)) := by
  have hval := char_valid_range c
  by_cases h1 : c = '"'
  · subst h1
    rw [show jesc '"' = ['\\', '"'] from rfl, List.cons_append, List.cons_append,
      List.nil_append, jstr_esc, jstrEsc1_short '"' '"' _ (by decide) (by decide)]
  by_cases h2 : c = '\\'
  · subst h2
    rw [show jesc '\\' = ['\\', '\\'] from rfl, List.cons_append, List.cons_append,
      List.nil_append, jstr_esc, jstrEsc1_short '\\' '\\' _ (by decide) (by decide)]
  by_cases h3 : c = '\n'
  · subst h3
    rw [show jesc '\n' = ['\\', 'n'] from rfl, List.cons_append, List.cons_append,
      List.nil_append, jstr_esc, jstrEsc1_short 'n' '\n' _ (by decide) (by decide)]
  by_cases h4 : c = '\r'
  · subst h4
    rw [show jesc '\r' = ['\\', 'r'] from rfl, List.cons_append, List.cons_append,
      List.nil_append, jstr_esc, jstrEsc1_short 'r' '\r' _ (by decide) (by decide)]
  by_cases h5 : c = '\t'
  · subst h5
    rw [show jesc '\t' = ['\\', 't'] from rfl, List.cons_append, List.cons_append,
      List.nil_append, jstr_esc, jstrEsc1_short 't' '\t' _ (by decide) (by decide)]
  by_cases h6 : c = '\x08'
  · subst h6
    rw [show jesc '\x08' = ['\\', 'b'] from rfl, List.cons_append, List.cons_append,
      List.nil_append, jstr_esc, jstrEsc1_short 'b' '\x08' _ (by decide) (by decide)]
  by_cases h7 : c = '\x0c'
  · subst h7
    rw [show jesc '\x0c' = ['\\', 'f'] from rfl, List.cons_append, List.cons_append,
      List.nil_append, jstr_esc, jstrEsc1_short 'f' '\x0c' _ (by decide) (by decide)]
  by_cases h8 : 32 ≤ c.toNat ∧ c.toNat ≤ 126
  · have hlt : ¬(c.toNat < 32) := by omega
    have hj : jesc c = [c] := by
      simp [jesc, h1, h2, h3, h4, h5, h6, h7, h8]
    rw [hj, List.cons_append, List.nil_append, jstr_plain fuel c _ h1 h2 hlt]
  by_cases h9 : c.toNat < 65536
  · -- a basic-plane \uXXXX escape
    have hs1 : ¬(55296 ≤ c.toNat ∧ c.toNat ≤ 56319) := fun h => hval.2 ⟨h.1, by omega⟩
    have hs2 : ¬(56320 ≤ c.toNat ∧ c.toNat ≤ 57343) := fun h => hval.2 ⟨by omega, h.2⟩
    have hj : jesc c = uEsc c.toNat := by
      simp [jesc, h1, h2, h3, h4, h5, h6, h7, h8, h9]
    rw [hj]
    simp only [uEsc, List.cons_append, List.nil_append]
    rw [jstr_esc, jstrEsc1_bmp _ _ _ _ _ _ (hex4v_parts c.toNat h9) hs1 hs2,
      Char.ofNat_toNat]
  · -- an astral character: a surrogate pair of \uXXXX escapes
    have hcap := hval.1
    have hhi : 55296 + (c.toNat - 65536) / 1024 < 65536 := by omega
    have hlo : 56320 + (c.toNat - 65536) % 1024 < 65536 := by omega
    have hj : jesc c =
        uEsc (55296 + (c.toNat - 65536) / 1024) ++ uEsc (56320 + (c.toNat - 65536) % 1024) := by
      simp [jesc, h1, h2, h3, h4, h5, h6, h7, h8, h9]
    rw [hj]
    simp only [uEsc, List.cons_append, List.append_assoc, List.nil_append]
    rw [jstr_esc, jstrEsc1_pair _ _ _ _ _ _ _ _ _ _ _ (hex4v_parts _ hhi) (by omega)
      (hex4v_parts _ hlo) (by omega)]
    have hback : 65536 + (55296 + (c.toNat - 65536) / 1024 - 55296) * 1024 +
        (56320 + (c.toNat - 65536) % 1024 - 56320) = c.toNat := by omega
    rw [hback, Char.ofNat_toNat]

/-- Scanning the escaped body of a string recovers the characters. -/
theorem jstr_strBody_chars :
    ∀ (l : List Char) (fuel : Nat) (rest : List Char), l.length < fuel →
      jstr fuel (l.flatMap jesc ++ '"' :: rest) = .ok (l, rest) := by
  intro l
  induction l with
  | nil =>
    intro fuel rest h
    cases fuel with
    | zero => omega
    | succ f => simpa using jstr_quote f rest
  | cons c t ih =>
    intro fuel rest h
    cases fuel with
    | zero => omega
    | succ f =>
      rw [List.flatMap_cons, List.append_assoc, jstr_jesc, ih f rest (by simpa using h)]
      rfl

/-- Scanning a rendered string body recovers the string. -/
theorem jstr_strBody (s : String) (fuel : Nat) (rest : List Char)
    (h : s.data.length < fuel) :
    jstr fuel (strBody s ++ '"' :: rest) = .ok (s.data, rest) :=
  jstr_strBody_chars s.data fuel rest h

/-- Rebuilding a string from its characters is the identity. -/
theorem mk_data (s : String) : String.mk s.data = s := by
  cases s
  rfl

/-- Escaping never shortens: one character yields at least one. -/
theorem jesc_length_pos (c : Char) : 1 ≤ (jesc c).length := by
  unfold jesc
  split_ifs <;> simp [uEsc]

/-- The escaped body is at least as long as the string. -/
theorem data_le_strBody (s : String) : s.data.length ≤ (strBody s).length := by
  show s.data.length ≤ (s.data.flatMap jesc).length
  induction s.data with
  | nil => simp
  | cons c t ih =>
    have := jesc_length_pos c
    simp only [List.flatMap_cons, List.length_append, List.length_cons]
    omega

/-! ## Numeral round trip -/

theorem natDec_cons (n : Nat) : ∃ d ds, natDec n = d :: ds ∧ d.isDigit = true := by
  rcases h : natDec n with _ | ⟨d, ds⟩
  · exact absurd h (natDec_ne_nil n)
  · exact ⟨d, ds, rfl, natDec_digits n d (by rw [h]; exact List.mem_cons_self _ _)⟩

/-- One-step unfolding of jnum on a minus sign. -/
theorem jnum_neg (t : List Char) :
    jnum '-' t =
      (if t.takeWhile Char.isDigit = [] then .error "Expecting value"
      else .ok (.num (-(digitsVal (t.takeWhile Char.isDigit) : Int)),
        t.dropWhile Char.isDigit)) := rfl

/-- One-step unfolding of jnum on a leading digit. -/
theorem jnum_pos (c : Char) (t : List Char) (h : c ≠ '-') :
    jnum c t =
      (if (c :: t).takeWhile Char.isDigit = [] then .error "Expecting value"
      else .ok (.num (digitsVal ((c :: t).takeWhile Char.isDigit)),
        (c :: t).dropWhile Char.isDigit)) := by
  show (if c = '-' then _ else _) = _
  rw [if_neg h]

/-- jnum inverts the decimal rendering of a natural number. -/
theorem jnum_natDec (n : Nat) (d : Char) (ds rest : List Char)
    (hnd : natDec n = d :: ds) (hrest : numTerm rest) :
    jnum d (ds ++ rest) = .ok (.num n, rest) := by
  have hdig : ∀ c ∈ natDec n, Char.isDigit c = true := natDec_digits n
  have hd : d.isDigit = true := hdig d (by rw [hnd]; exact List.mem_cons_self _ _)
  have hne : d ≠ '-' := (digit_not_special d hd).2.2.2.2.2.2.1
  have htk := takeWhile_digits_append (d :: ds) rest (by rw [← hnd]; exact hdig) hrest
  rw [jnum_pos d _ hne, ← List.cons_append, htk.1, htk.2]
  rw [if_neg (by simp), ← hnd, digitsVal_natDec]

/-- jnum inverts the decimal rendering of a negated natural number. -/
theorem jnum_negDec (n : Nat) (rest : List Char) (hrest : numTerm rest) :
    jnum '-' (natDec n ++ rest) = .ok (.num (-(n : Int)), rest) := by
  have htk := takeWhile_digits_append (natDec n) rest (natDec_digits n) hrest
  rw [jnum_neg, htk.1, htk.2, if_neg (natDec_ne_nil n), digitsVal_natDec]

/-! ## Scanner step lemmas -/

/-- One-step unfolding of jscan at successor fuel (definitional). -/
theorem jscan_succ (fuel : Nat) (cs : List Char) :
    jscan (fuel + 1) cs =
      (match wsDrop cs with
      | [] => .error "Expecting value"
      | c :: t => jscanCore (jscanA fuel) (jscanO fuel) (jstr fuel) c t) := rfl

/-- jscan dispatches on the first character when it is no whitespace. -/
theorem jscan_cons (fuel : Nat) (c : Char) (t : List Char) (hws : jWs c = false) :
    jscan (fuel + 1) (c :: t) = jscanCore (jscanA fuel) (jscanO fuel) (jstr fuel) c t := by
  rw [jscan_succ, wsDrop_cons_not _ _ hws]

/-- One-step unfolding of jscanA at successor fuel (definitional). -/
theorem jscanA_succ (fuel : Nat) (cs : List Char) :
    jscanA (fuel + 1) cs = (jscan fuel cs).bind (fun p => jscanAEnd (jscanA fuel) p.1 p.2) := rfl

/-- Entering an object member list at a key (definitional). -/
theorem jscanO_quote (fuel : Nat) (m : List Char) :
    jscanO (fuel + 1) ('"' :: m) =
      (jstr fuel m).bind (fun q => jscanOCore (jscan fuel) (jscanO fuel) q.1 q.2) := rfl

/-- Binding an ok value applies the continuation (definitional). -/
theorem except_bind_ok {α β : Type} (a : α) (f : α → Except String β) :
    (Except.ok a : Except String α).bind f = f a := rfl

/-- A closing bracket after an element ends the array (definitional). -/
theorem jscanAEnd_close (scanA : List Char → Except String (List Json × List Char))
    (v : Json) (r2 : List Char) : jscanAEnd scanA v (']' :: r2) = .ok ([v], r2) := rfl

/-- A comma after an element requires more elements (definitional). -/
theorem jscanAEnd_comma (scanA : List Char → Except String (List Json × List Char))
    (v : Json) (r2 : List Char) :
    jscanAEnd scanA v (',' :: r2) = (scanA r2).map (fun p => (v :: p.1, p.2)) := rfl

/-- A colon after a key scans the member value (definitional). -/
theorem jscanOCore_colon (scanV : List Char → Except String (Json × List Char))
    (scanO : List Char → Except String (List (String × Json) × List Char))
    (k0 : List Char) (r2 : List Char) :
    jscanOCore scanV scanO k0 (':' :: r2) =
      (scanV r2).bind (fun q => jscanOEnd scanO k0 q.1 q.2) := rfl

/-- A closing brace after a member ends the object (definitional). -/
theorem jscanOEnd_close (scanO : List Char → Except String (List (String × Json) × List Char))
    (k0 : List Char) (v : Json) (r4 : List Char) :
    jscanOEnd scanO k0 v ('\x7d' :: r4) = .ok ([(String.mk k0, v)], r4) := rfl

/-- A comma after a member requires more members (definitional). -/
theorem jscanOEnd_comma (scanO : List Char → Except String (List (String × Json) × List Char))
    (k0 : List Char) (v : Json) (r4 : List Char) :
    jscanOEnd scanO k0 v (',' :: r4) =
      (scanO r4).map (fun p => ((String.mk k0, v) :: p.1, p.2)) := rfl

/-- The dispatch on an opening bracket (definitional). -/
theorem jscanCore_arr (scanA : List Char → Except String (List Json × List Char))
    (scanO : List Char → Except String (List (String × Json) × List Char))
    (scanStr : List Char → Except String (List Char × List Char)) (t : List Char) :
    jscanCore scanA scanO scanStr '[' t =
      (match wsDrop t with
      | [] => .error "Expecting value"
      | d :: r =>
        if d = ']' then .ok (.arr [], r)
        else (scanA (d :: r)).map (fun p => (.arr p.1, p.2))) := rfl

/-- The dispatch reaches the numeral scanner exactly on a sign or digit. -/
theorem jscanCore_num (scanA : List Char → Except String (List Json × List Char))
    (scanO : List Char → Except String (List (String × Json) × List Char))
    (scanStr : List Char → Except String (List Char × List Char)) (c : Char) (t : List Char)
    (hn : c ≠ 'n') (ht : c ≠ 't') (hf : c ≠ 'f') (hq : c ≠ '"') (ha : c ≠ '[')
    (hb : c ≠ '\x7b') (hd : c = '-' ∨ c.isDigit = true) :
    jscanCore scanA scanO scanStr c t = jnum c t := by
  show (if c = 'n' then _ else _) = _
  rw [if_neg hn, if_neg ht, if_neg hf, if_neg hq, if_neg ha, if_neg hb, if_pos hd]

/-- Scanning a rendered integer numeral recovers it. -/
theorem jscan_num (fuel : Nat) (i : Int) (rest : List Char) (hrest : numTerm rest) :
    jscan (fuel + 1) (intDec i ++ rest) = .ok (.num i, rest) := by
  by_cases hneg : i < 0
  · have hshape : intDec i = '-' :: natDec i.natAbs := by simp [intDec, hneg]
    rw [hshape, List.cons_append, jscan_cons fuel _ _ (by decide)]
    rw [jscanCore_num _ _ _ _ _ (by decide) (by decide) (by decide) (by decide) (by decide)
      (by decide) (Or.inl rfl)]
    rw [jnum_negDec _ _ hrest]
    have hcast : -((i.natAbs : Nat) : Int) = i := by omega
    rw [hcast]
  · obtain ⟨d, ds, hnd, hdd⟩ := natDec_cons i.natAbs
    have hns := digit_not_special d hdd
    have hshape : intDec i = d :: ds := by
      rw [intDec, if_neg hneg, hnd]
    rw [hshape, List.cons_append, jscan_cons fuel _ _ hns.2.2.2.2.2.2.2.1]
    rw [jscanCore_num _ _ _ _ _ hns.1 hns.2.1 hns.2.2.1 hns.2.2.2.1 hns.2.2.2.2.1
      hns.2.2.2.2.2.1 (Or.inr hdd)]
    rw [jnum_natDec i.natAbs d ds rest hnd hrest]
    have hcast : ((i.natAbs : Nat) : Int) = i := by omega
    rw [hcast]

/-! ## Shape facts about rendered values -/

/-- Every rendered value starts with a non-whitespace character that closes
no bracket. -/
theorem dumpVal_head (j : Json) :
    ∃ c t, dumpVal j = c :: t ∧ jWs c = false ∧ c ≠ ']' := by
  cases j with
  | null => exact ⟨'n', _, rfl, by decide, by decide⟩
  | bool b =>
    cases b with
    | false => exact ⟨'f', _, rfl, by decide, by decide⟩
    | true => exact ⟨'t', _, rfl, by decide, by decide⟩
  | num i =>
    by_cases hneg : i < 0
    · refine ⟨'-', natDec i.natAbs, ?_, by decide, by decide⟩
      show intDec i = _
      rw [intDec, if_pos hneg]
    · obtain ⟨d, ds, hnd, hdd⟩ := natDec_cons i.natAbs
      have hns := digit_not_special d hdd
      refine ⟨d, ds, ?_, hns.2.2.2.2.2.2.2.1, hns.2.2.2.2.2.2.2.2.1⟩
      show intDec i = _
      rw [intDec, if_neg hneg, hnd]
  | str s => exact ⟨'"', _, rfl, by decide, by decide⟩
  | arr es => exact ⟨'[', _, rfl, by decide, by decide⟩
  | obj ms => exact ⟨'\x7b', _, rfl, by decide, by decide⟩

/-- The empty remainder cannot extend a numeral. -/
theorem numTerm_nil : numTerm [] := by
  intro c hc
  simp at hc

/-- A remainder headed by a non-digit cannot extend a numeral. -/
theorem numTerm_cons (c : Char) (l : List Char) (h : Char.isDigit c = false) :
    numTerm (c :: l) := by
  intro x hx
  simp only [List.head?_cons, Option.mem_def, Option.some.injEq] at hx
  rw [← hx]
  exact h

/-- What follows an array element is a comma or the closing bracket, never
a digit. -/
theorem numTerm_arrTl (t : List Json) (rest : List Char) :
    numTerm (dumpArrTl t ++ ']' :: rest) := by
  cases t with
  | nil =>
    simp only [dumpArrTl, List.nil_append]
    exact numTerm_cons _ _ (by decide)
  | cons y t2 =>
    simp only [dumpArrTl, List.cons_append]
    exact numTerm_cons _ _ (by decide)

/-- What follows an object value is a comma or the closing brace, never a
digit. -/
theorem numTerm_objTl (t : List (String × Json)) (rest : List Char) :
    numTerm (dumpObjTl t ++ '\x7d' :: rest) := by
  cases t with
  | nil =>
    simp only [dumpObjTl, List.nil_append]
    exact numTerm_cons _ _ (by decide)
  | cons kv t2 =>
    obtain ⟨k2, v2⟩ := kv
    simp only [dumpObjTl, List.cons_append]
    exact numTerm_cons _ _ (by decide)

/-! ## The codec round trip -/

mutual

/-- Scanning a rendered value recovers it, leaving the remainder. -/
theorem rt_val : ∀ (j : Json) (fuel : Nat) (rest : List Char),
    (dumpVal j).length < fuel → numTerm rest →
    jscan fuel (dumpVal j ++ rest) = .ok (j, rest)
  | .null, fuel, rest, hf, _ => by
    cases fuel with
    | zero => simp [dumpVal] at hf
    | succ f => rfl
  | .bool true, fuel, rest, hf, _ => by
    cases fuel with
    | zero => simp [dumpVal] at hf
    | succ f => rfl
  | .bool false, fuel, rest, hf, _ => by
    cases fuel with
    | zero => simp [dumpVal] at hf
    | succ f => rfl
  | .num i, fuel, rest, hf, hr => by
    cases fuel with
    | zero => exact absurd hf (Nat.not_lt_zero _)
    | succ f => exact jscan_num f i rest hr
  | .str s, fuel, rest, hf, _ => by
    cases fuel with
    | zero => exact absurd hf (Nat.not_lt_zero _)
    | succ f =>
      have hb : s.data.length < f := by
        have h1 := data_le_strBody s
        have h2 : (dumpVal (.str s)).length = (strBody s).length + 2 := by
          simp [dumpVal, strQuoted]
        omega
      have hshape : dumpVal (.str s) ++ rest = '"' :: (strBody s ++ '"' :: rest) := by
        simp [dumpVal, strQuoted]
      rw [hshape]
      have hstep : jscan (f + 1) ('"' :: (strBody s ++ '"' :: rest)) =
          (jstr f (strBody s ++ '"' :: rest)).map
            (fun p => (.str (String.mk p.1), p.2)) := rfl
      rw [hstep, jstr_strBody s f rest hb]
      show Except.ok (Json.str (String.mk s.data), rest) = Except.ok (Json.str s, rest)
      rw [mk_data]
  | .arr [], fuel, rest, hf, _ => by
    cases fuel with
    | zero => simp [dumpVal, dumpArr] at hf
    | succ f =>
      have hshape : dumpVal (.arr []) ++ rest = '[' :: ']' :: rest := by
        simp [dumpVal, dumpArr]
      rw [hshape]
      rfl
  | .arr (x :: t), fuel, rest, hf, hr => by
    cases fuel with
    | zero => exact absurd hf (Nat.not_lt_zero _)
    | succ f =>
      obtain ⟨c0, t0, hd, hws, hne⟩ := dumpVal_head x
      have hlen : (dumpVal x ++ dumpArrTl t).length + 1 < f := by
        have h2 : (dumpVal (.arr (x :: t))).length
            = (dumpVal x ++ dumpArrTl t).length + 2 := by
          simp [dumpVal, dumpArr]
          omega
        omega
      have key := rt_arr x t f rest hlen hr
      have hshape : dumpVal (.arr (x :: t)) ++ rest
          = '[' :: (dumpVal x ++ (dumpArrTl t ++ ']' :: rest)) := by
        simp [dumpVal, dumpArr]
      rw [hshape, hd, List.cons_append]
      rw [jscan_cons f '[' _ (by decide), jscanCore_arr]
      rw [wsDrop_cons_not _ _ hws]
      show (if c0 = ']' then Except.ok (Json.arr [], t0 ++ (dumpArrTl t ++ ']' :: rest))
        else (jscanA f (c0 :: (t0 ++ (dumpArrTl t ++ ']' :: rest)))).map
          (fun p => (Json.arr p.1, p.2))) = _
      rw [if_neg hne, ← List.cons_append, ← hd, key]
      rfl
  | .obj [], fuel, rest, hf, _ => by
    cases fuel with
    | zero => simp [dumpVal, dumpObj] at hf
    | succ f =>
      have hshape : dumpVal (.obj []) ++ rest = '\x7b' :: '\x7d' :: rest := by
        simp [dumpVal, dumpObj]
      rw [hshape]
      rfl
  | .obj ((k, v) :: t), fuel, rest, hf, hr => by
    cases fuel with
    | zero => exact absurd hf (Nat.not_lt_zero _)
    | succ f =>
      have hlen : (strQuoted k ++ ':' :: (dumpVal v ++ dumpObjTl t)).length + 1 < f := by
        have h2 : (dumpVal (.obj ((k, v) :: t))).length
            = (strQuoted k ++ ':' :: (dumpVal v ++ dumpObjTl t)).length + 2 := by
          simp [dumpVal, dumpObj]
          omega
        omega
      have key := rt_obj k v t f rest hlen hr
      have hshape : dumpVal (.obj ((k, v) :: t)) ++ rest
          = '\x7b' :: ('"' :: (strBody k ++ '"' :: ':' ::
            (dumpVal v ++ (dumpObjTl t ++ '\x7d' :: rest)))) := by
        simp [dumpVal, dumpObj, strQuoted]
      rw [hshape]
      have hstep : ∀ m : List Char, jscan (f + 1) ('\x7b' :: '"' :: m) =
          (jscanO f ('"' :: m)).map (fun p => (.obj p.1, p.2)) := fun m => rfl
      rw [hstep, key]
      rfl
termination_by j _ _ _ _ => sizeOf j

/-- Scanning a rendered nonempty element list recovers the elements. -/
theorem rt_arr : ∀ (x : Json) (t : List Json) (fuel : Nat) (rest : List Char),
    (dumpVal x ++ dumpArrTl t).length + 1 < fuel → numTerm rest →
    jscanA fuel (dumpVal x ++ (dumpArrTl t ++ ']' :: rest)) = .ok (x :: t, rest)
  | x, [], fuel, rest, hf, hr => by
    cases fuel with
    | zero => exact absurd hf (Nat.not_lt_zero _)
    | succ f =>
      have hb : (dumpVal x).length < f := by
        simp only [List.length_append] at hf
        omega
      simp only [dumpArrTl, List.nil_append]
      have hv := rt_val x f (']' :: rest) hb (numTerm_cons _ _ (by decide))
      rw [jscanA_succ, hv, except_bind_ok]
      rfl
  | x, y :: t2, fuel, rest, hf, hr => by
    cases fuel with
    | zero => exact absurd hf (Nat.not_lt_zero _)
    | succ f =>
      have hb : (dumpVal x).length < f := by
        simp only [dumpArrTl, List.length_append, List.length_cons] at hf
        omega
      have hrec : (dumpVal y ++ dumpArrTl t2).length + 1 < f := by
        simp only [dumpArrTl, List.length_append, List.length_cons] at hf ⊢
        omega
      simp only [dumpArrTl, List.cons_append, List.append_assoc]
      have hv := rt_val x f (',' :: (dumpVal y ++ (dumpArrTl t2 ++ ']' :: rest))) hb
        (numTerm_cons _ _ (by decide))
      have key := rt_arr y t2 f rest hrec hr
      rw [jscanA_succ, hv, except_bind_ok]
      show jscanAEnd (jscanA f) x (',' :: (dumpVal y ++ (dumpArrTl t2 ++ ']' :: rest))) = _
      rw [jscanAEnd_comma, key]
      rfl
termination_by x t _ _ _ _ => sizeOf x + sizeOf t

/-- Scanning a rendered nonempty member list recovers the members. -/
theorem rt_obj : ∀ (k : String) (v : Json) (t : List (String × Json)) (fuel : Nat)
    (rest : List Char),
    (strQuoted k ++ ':' :: (dumpVal v ++ dumpObjTl t)).length + 1 < fuel → numTerm rest →
    jscanO fuel ('"' :: (strBody k ++ '"' :: ':' ::
      (dumpVal v ++ (dumpObjTl t ++ '\x7d' :: rest)))) = .ok ((k, v) :: t, rest)
  | k, v, [], fuel, rest, hf, hr => by
    cases fuel with
    | zero => exact absurd hf (Nat.not_lt_zero _)
    | succ f =>
      have hq : (strQuoted k).length = (strBody k).length + 2 := by
        simp [strQuoted]
      have hbk : k.data.length < f := by
        have h1 := data_le_strBody k
        simp only [List.length_append, List.length_cons] at hf
        omega
      have hbv : (dumpVal v).length < f := by
        simp only [List.length_append, List.length_cons] at hf
        omega
      simp only [dumpObjTl, List.nil_append]
      have hv := rt_val v f ('\x7d' :: rest) hbv (numTerm_cons _ _ (by decide))
      rw [jscanO_quote, jstr_strBody k f _ hbk, except_bind_ok]
      show jscanOCore (jscan f) (jscanO f) k.data
        (':' :: (dumpVal v ++ '\x7d' :: rest)) = _
      rw [jscanOCore_colon, hv, except_bind_ok]
      show jscanOEnd (jscanO f) k.data v ('\x7d' :: rest) = _
      rw [jscanOEnd_close, mk_data]
  | k, v, (k2, v2) :: t2, fuel, rest, hf, hr => by
    cases fuel with
    | zero => exact absurd hf (Nat.not_lt_zero _)
    | succ f =>
      have hq : (strQuoted k).length = (strBody k).length + 2 := by
        simp [strQuoted]
      have hbk : k.data.length < f := by
        have h1 := data_le_strBody k
        simp only [List.length_append, List.length_cons] at hf
        omega
      have hbv : (dumpVal v).length < f := by
        simp only [List.length_append, List.length_cons] at hf
        omega
      have hrec : (strQuoted k2 ++ ':' :: (dumpVal v2 ++ dumpObjTl t2)).length + 1 < f := by
        simp only [dumpObjTl, strQuoted, List.length_append, List.length_cons] at hf ⊢
        omega
      simp only [dumpObjTl, List.cons_append, List.append_assoc]
      have hv := rt_val v f
        (',' :: (strQuoted k2 ++ (':' :: (dumpVal v2 ++ (dumpObjTl t2 ++ '\x7d' :: rest)))))
        hbv (numTerm_cons _ _ (by decide))
      have key := rt_obj k2 v2 t2 f rest hrec hr
      rw [jscanO_quote, jstr_strBody k f _ hbk, except_bind_ok]
      show jscanOCore (jscan f) (jscanO f) k.data (':' :: (dumpVal v ++
        (',' :: (strQuoted k2 ++ (':' :: (dumpVal v2 ++ (dumpObjTl t2 ++ '\x7d' :: rest))))))) = _
      rw [jscanOCore_colon, hv, except_bind_ok]
      show jscanOEnd (jscanO f) k.data v (',' :: (strQuoted k2 ++ (':' ::
        (dumpVal v2 ++ (dumpObjTl t2 ++ '\x7d' :: rest))))) = _
      rw [jscanOEnd_comma]
      have hq2 : strQuoted k2 ++ (':' :: (dumpVal v2 ++ (dumpObjTl t2 ++ '\x7d' :: rest)))
          = '"' :: (strBody k2 ++ '"' :: ':' ::
            (dumpVal v2 ++ (dumpObjTl t2 ++ '\x7d' :: rest))) := by
        simp [strQuoted]
      rw [hq2, key, mk_data]
      rfl
termination_by _ v t _ _ _ _ => sizeOf v + sizeOf t

end

/-- loads inverts dumps: the codec round trip for every value. -/
theorem loads_dumps (j : Json) : loads (dumps j) = .ok j := by
  have hdata : (dumps j).data = dumpVal j := rfl
  rw [loads, hdata]
  have h := rt_val j ((dumpVal j).length + 1) [] (by omega) numTerm_nil
  rw [List.append_nil] at h
  rw [h]
  rfl

/-! ## Frame round trip through parse_uart_line -/

/-- Stripping is the identity on a list with no leading or trailing
whitespace. -/
theorem pyStrip_eq_nows : ∀ (l : List Char), (∀ c ∈ l.head?, pyWs c = false) →
    (∀ c ∈ l.getLast?, pyWs c = false) → pyStrip l = l
  | [], _, _ => rfl
  | c :: t, h1, h2 => by
    have hc : pyWs c = false := h1 c (by simp)
    show (((c :: t).dropWhile pyWs).reverse.dropWhile pyWs).reverse = c :: t
    rw [List.dropWhile_cons, if_neg (by simp [hc])]
    rcases hrev : (c :: t).reverse with _ | ⟨d, r⟩
    · exact absurd hrev (by simp)
    · have hd : (c :: t).getLast? = some d := by
        rw [← List.head?_reverse, hrev]
        rfl
      have hdws : pyWs d = false := h2 d (by rw [hd]; rfl)
      rw [List.dropWhile_cons, if_neg (by simp [hdws])]
      calc (d :: r).reverse = ((c :: t).reverse).reverse := by rw [hrev]
        _ = c :: t := List.reverse_reverse _

/-- Stripping removes one trailing newline from a list with no other
surrounding whitespace. -/
theorem pyStrip_append_nl (l : List Char) (h1 : ∀ c ∈ l.head?, pyWs c = false)
    (h2 : ∀ c ∈ l.getLast?, pyWs c = false) : pyStrip (l ++ ['\n']) = l := by
  cases l with
  | nil => rfl
  | cons c t =>
    have hc : pyWs c = false := h1 c (by simp)
    show ((((c :: t) ++ ['\n']).dropWhile pyWs).reverse.dropWhile pyWs).reverse = c :: t
    rw [List.cons_append, List.dropWhile_cons, if_neg (by simp [hc]), ← List.cons_append,
      List.reverse_append]
    show (List.dropWhile pyWs ('\n' :: (c :: t).reverse)).reverse = c :: t
    rw [List.dropWhile_cons, if_pos (by decide)]
    rcases hrev : (c :: t).reverse with _ | ⟨d, r⟩
    · exact absurd hrev (by simp)
    · have hd : (c :: t).getLast? = some d := by
        rw [← List.head?_reverse, hrev]
        rfl
      have hdws : pyWs d = false := h2 d (by rw [hd]; rfl)
      rw [List.dropWhile_cons, if_neg (by simp [hdws])]
      calc (d :: r).reverse = ((c :: t).reverse).reverse := by rw [hrev]
        _ = c :: t := List.reverse_reverse _

/-- Stripping drops a single leading space. -/
theorem pyStrip_space (l : List Char) : pyStrip (' ' :: l) = pyStrip l := by
  show ((((' ' :: l)).dropWhile pyWs).reverse.dropWhile pyWs).reverse = _
  rw [List.dropWhile_cons, if_pos (by decide)]
  rfl

/-- A rendered object starts with the opening brace and ends with the
closing one. -/
theorem dumpVal_obj_ends (p : List (String × Json)) :
    (dumpVal (.obj p)).head? = some '\x7b' ∧
      (dumpVal (.obj p)).getLast? = some '\x7d' := by
  constructor
  · rfl
  · have hshape : dumpVal (.obj p) = ('\x7b' :: dumpObj p) ++ ['\x7d'] := by
      simp [dumpVal]
    rw [hshape, List.getLast?_concat]

/-- Evaluating parse_uart_line on a well-formed tagged object frame. -/
theorem parse_uart_frame (line : String) (pfx ty : String) (p : List (String × Json))
    (hdata : pyStrip line.data = pfx.data ++ (' ' :: dumpVal (.obj p)))
    (hne : pfx.data ++ (' ' :: dumpVal (.obj p)) ≠ [])
    (hfind : findTag (pfx.data ++ (' ' :: dumpVal (.obj p))) = some (pfx, ty))
    (hdrop : (pfx.data ++ (' ' :: dumpVal (.obj p))).drop pfx.length
      = ' ' :: dumpVal (.obj p)) :
    parse_uart_line line = (ty, .obj p) := by
  have hstrip2 : pyStrip (' ' :: dumpVal (.obj p)) = dumpVal (.obj p) := by
    rw [pyStrip_space]
    refine pyStrip_eq_nows _ ?_ ?_
    · intro c hc
      rw [(dumpVal_obj_ends p).1] at hc
      simp only [Option.mem_def, Option.some.injEq] at hc
      rw [← hc]
      rfl
    · intro c hc
      rw [(dumpVal_obj_ends p).2] at hc
      simp only [Option.mem_def, Option.some.injEq] at hc
      rw [← hc]
      rfl
  have hne2 : dumpVal (.obj p) ≠ [] := by
    intro h
    have := (dumpVal_obj_ends p).1
    rw [h] at this
    simp at this
  simp only [parse_uart_line, hdata]
  rw [if_neg hne, hfind]
  simp only [hdrop, hstrip2]
  rw [if_neg hne2]
  have hl : String.mk (dumpVal (.obj p)) = dumps (.obj p) := rfl
  rw [hl, loads_dumps]

/-- parse_uart_line inverts make_data_line. -/
theorem parse_make_data_line (p : List (String × Json)) :
    parse_uart_line (make_data_line p) = ("DATA", .obj p) := by
  have h1 : (make_data_line p).data = ("@DATA ".data ++ dumpVal (.obj p)) ++ ['\n'] := by
    show (("@DATA " ++ dumps (.obj p)) ++ "\n").data = _
    rw [String.data_append, String.data_append]
    rfl
  have hhead : ∀ c ∈ ("@DATA ".data ++ dumpVal (.obj p)).head?, pyWs c = false := by
    intro c hc
    have : ("@DATA ".data ++ dumpVal (.obj p)).head? = some '@' := rfl
    rw [this] at hc
    simp only [Option.mem_def, Option.some.injEq] at hc
    rw [← hc]
    rfl
  have hlast : ∀ c ∈ ("@DATA ".data ++ dumpVal (.obj p)).getLast?, pyWs c = false := by
    intro c hc
    have hshape : "@DATA ".data ++ dumpVal (.obj p)
        = ("@DATA ".data ++ '\x7b' :: dumpObj p) ++ ['\x7d'] := by
      simp [dumpVal]
    rw [hshape, List.getLast?_concat] at hc
    simp only [Option.mem_def, Option.some.injEq] at hc
    rw [← hc]
    rfl
  refine parse_uart_frame _ "@DATA" "DATA" p ?_ (by simp) rfl rfl
  rw [h1, pyStrip_append_nl _ hhead hlast]
  rfl

/-- parse_uart_line inverts make_ack_line. -/
theorem parse_make_ack_line (p : List (String × Json)) :
    parse_uart_line (make_ack_line p) = ("ACK", .obj p) := by
  have h1 : (make_ack_line p).data = ("@ACK ".data ++ dumpVal (.obj p)) ++ ['\n'] := by
    show (("@ACK " ++ dumps (.obj p)) ++ "\n").data = _
    rw [String.data_append, String.data_append]
    rfl
  have hhead : ∀ c ∈ ("@ACK ".data ++ dumpVal (.obj p)).head?, pyWs c = false := by
    intro c hc
    have : ("@ACK ".data ++ dumpVal (.obj p)).head? = some '@' := rfl
    rw [this] at hc
    simp only [Option.mem_def, Option.some.injEq] at hc
    rw [← hc]
    rfl
  have hlast : ∀ c ∈ ("@ACK ".data ++ dumpVal (.obj p)).getLast?, pyWs c = false := by
    intro c hc
    have hshape : "@ACK ".data ++ dumpVal (.obj p)
        = ("@ACK ".data ++ '\x7b' :: dumpObj p) ++ ['\x7d'] := by
      simp [dumpVal]
    rw [hshape, List.getLast?_concat] at hc
    simp only [Option.mem_def, Option.some.injEq] at hc
    rw [← hc]
    rfl
  refine parse_uart_frame _ "@ACK" "ACK" p ?_ (by simp) rfl rfl
  rw [h1, pyStrip_append_nl _ hhead hlast]
  rfl

/-- parse_uart_line inverts make_info_line. -/
theorem parse_make_info_line (p : List (String × Json)) :
    parse_uart_line (make_info_line p) = ("INFO", .obj p) := by
  have h1 : (make_info_line p).data = ("@INFO ".data ++ dumpVal (.obj p)) ++ ['\n'] := by
    show (("@INFO " ++ dumps (.obj p)) ++ "\n").data = _
    rw [String.data_append, String.data_append]
    rfl
  have hhead : ∀ c ∈ ("@INFO ".data ++ dumpVal (.obj p)).head?, pyWs c = false := by
    intro c hc
    have : ("@INFO ".data ++ dumpVal (.obj p)).head? = some '@' := rfl
    rw [this] at hc
    simp only [Option.mem_def, Option.some.injEq] at hc
    rw [← hc]
    rfl
  have hlast : ∀ c ∈ ("@INFO ".data ++ dumpVal (.obj p)).getLast?, pyWs c = false := by
    intro c hc
    have hshape : "@INFO ".data ++ dumpVal (.obj p)
        = ("@INFO ".data ++ '\x7b' :: dumpObj p) ++ ['\x7d'] := by
      simp [dumpVal]
    rw [hshape, List.getLast?_concat] at hc
    simp only [Option.mem_def, Option.some.injEq] at hc
    rw [← hc]
    rfl
  refine parse_uart_frame _ "@INFO" "INFO" p ?_ (by simp) rfl rfl
  rw [h1, pyStrip_append_nl _ hhead hlast]
  rfl

/-! ## Shape of every parse_uart_line result -/

/-- One step of parse_uart_line once a tag has been found. -/
theorem parse_uart_some (line : String) (pr : String × String)
    (h0 : ¬pyStrip line.data = []) (hft : findTag (pyStrip line.data) = some pr) :
    parse_uart_line line =
      (if pyStrip ((pyStrip line.data).drop pr.1.length) = [] then
        ("ERR", errPayload "missing_payload" (String.mk (pyStrip line.data)))
      else
        match loads (String.mk (pyStrip ((pyStrip line.data).drop pr.1.length))) with
        | .ok (.obj ms) => (pr.2, .obj ms)
        | .ok _ => ("ERR", errPayload "payload_not_dict" (String.mk (pyStrip line.data)))
        | .error e =>
            ("ERR", errPayload ("json_parse_error: " ++ e)
              (String.mk (pyStrip line.data)))) := by
  simp only [parse_uart_line]
  rw [if_neg h0, hft]

/-- The type found for a tag is one of the five frame types. -/
theorem tagTable_snd (pr : String × String) (h : pr ∈ tagTable) :
    pr.2 = "DATA" ∨ pr.2 = "ACK" ∨ pr.2 = "CMD" ∨ pr.2 = "LOG" ∨ pr.2 = "INFO" := by
  simp only [tagTable, List.mem_cons, List.not_mem_nil, or_false] at h
  rcases h with h | h | h | h | h
  all_goals subst h
  all_goals simp

/-- Claim C5 (amended): parse_uart_line is total (it returns a pair, never
raising), the returned kind is one of the six frame kinds, every failure is
an ERR frame whose error field is empty_line, unknown_prefix,
missing_payload, payload_not_dict, or a string beginning with
json_parse_error followed by the decoder message, carrying the stripped
line in the raw field (the empty string for whitespace-only input), and
empty or whitespace-only input yields ERR with error empty_line. -/
theorem parse_uart_line_err_shape (line : String) :
    ((parse_uart_line line).1 = "DATA" ∨ (parse_uart_line line).1 = "ACK" ∨
      (parse_uart_line line).1 = "CMD" ∨ (parse_uart_line line).1 = "LOG" ∨
      (parse_uart_line line).1 = "INFO" ∨ (parse_uart_line line).1 = "ERR") ∧
    ((parse_uart_line line).1 = "ERR" →
      ∃ e raw, (parse_uart_line line).2 = errPayload e raw ∧
        ((e = "empty_line" ∧ raw = "") ∨
          ((e = "unknown_prefix" ∨ e = "missing_payload" ∨ e = "payload_not_dict" ∨
            ∃ m, e = "json_parse_error: " ++ m) ∧
            raw = String.mk (pyStrip line.data)))) ∧
    (pyStrip line.data = [] →
      parse_uart_line line = ("ERR", errPayload "empty_line" "")) := by
  by_cases h0 : pyStrip line.data = []
  · have hres : parse_uart_line line = ("ERR", errPayload "empty_line" "") := by
      simp only [parse_uart_line]
      rw [if_pos h0]
    refine ⟨?_, ?_, fun _ => hres⟩
    · rw [hres]
      simp
    · intro _
      exact ⟨"empty_line", "", by rw [hres], Or.inl ⟨rfl, rfl⟩⟩
  · rcases hft : findTag (pyStrip line.data) with _ | pr
    · have hres : parse_uart_line line =
          ("ERR", errPayload "unknown_prefix" (String.mk (pyStrip line.data))) := by
        simp only [parse_uart_line]
        rw [if_neg h0, hft]
      refine ⟨?_, ?_, fun h => absurd h h0⟩
      · rw [hres]
        simp
      · intro _
        exact ⟨"unknown_prefix", _, by rw [hres], Or.inr ⟨Or.inl rfl, rfl⟩⟩
    · by_cases h1 : pyStrip ((pyStrip line.data).drop pr.1.length) = []
      · have hres : parse_uart_line line =
            ("ERR", errPayload "missing_payload" (String.mk (pyStrip line.data))) := by
          rw [parse_uart_some line pr h0 hft, if_pos h1]
        refine ⟨?_, ?_, fun h => absurd h h0⟩
        · rw [hres]
          simp
        · intro _
          exact ⟨"missing_payload", _, by rw [hres], Or.inr ⟨Or.inr (Or.inl rfl), rfl⟩⟩
      · rcases hld : loads (String.mk (pyStrip ((pyStrip line.data).drop pr.1.length)))
          with ⟨e⟩ | ⟨v⟩
        · have hres : parse_uart_line line =
              ("ERR", errPayload ("json_parse_error: " ++ e)
                (String.mk (pyStrip line.data))) := by
            rw [parse_uart_some line pr h0 hft, if_neg h1, hld]
          refine ⟨?_, ?_, fun h => absurd h h0⟩
          · rw [hres]
            simp
          · intro _
            exact ⟨"json_parse_error: " ++ e, _, by rw [hres],
              Or.inr ⟨Or.inr (Or.inr (Or.inr ⟨e, rfl⟩)), rfl⟩⟩
        · cases v with
          | obj ms =>
            have hres : parse_uart_line line = (pr.2, .obj ms) := by
              rw [parse_uart_some line pr h0 hft, if_neg h1, hld]
            have hmem : pr ∈ tagTable := List.mem_of_find?_eq_some hft
            have hk := tagTable_snd pr hmem
            refine ⟨?_, ?_, fun h => absurd h h0⟩
            · rw [hres]
              rcases hk with h | h | h | h | h
              all_goals simp [h]
            · intro hkind
              rw [hres] at hkind
              rcases hk with h | h | h | h | h <;> rw [h] at hkind <;> simp at hkind
          | null =>
            have hres : parse_uart_line line =
                ("ERR", errPayload "payload_not_dict" (String.mk (pyStrip line.data))) := by
              rw [parse_uart_some line pr h0 hft, if_neg h1, hld]
            refine ⟨?_, ?_, fun h => absurd h h0⟩
            · rw [hres]
              simp
            · intro _
              exact ⟨"payload_not_dict", _, by rw [hres],
                Or.inr ⟨Or.inr (Or.inr (Or.inl rfl)), rfl⟩⟩
          | bool b =>
            have hres : parse_uart_line line =
                ("ERR", errPayload "payload_not_dict" (String.mk (pyStrip line.data))) := by
              rw [parse_uart_some line pr h0 hft, if_neg h1, hld]
            refine ⟨?_, ?_, fun h => absurd h h0⟩
            · rw [hres]
              simp
            · intro _
              exact ⟨"payload_not_dict", _, by rw [hres],
                Or.inr ⟨Or.inr (Or.inr (Or.inl rfl)), rfl⟩⟩
          | num n =>
            have hres : parse_uart_line line =
                ("ERR", errPayload "payload_not_dict" (String.mk (pyStrip line.data))) := by
              rw [parse_uart_some line pr h0 hft, if_neg h1, hld]
            refine ⟨?_, ?_, fun h => absurd h h0⟩
            · rw [hres]
              simp
            · intro _
              exact ⟨"payload_not_dict", _, by rw [hres],
                Or.inr ⟨Or.inr (Or.inr (Or.inl rfl)), rfl⟩⟩
          | str s =>
            have hres : parse_uart_line line =
                ("ERR", errPayload "payload_not_dict" (String.mk (pyStrip line.data))) := by
              rw [parse_uart_some line pr h0 hft, if_neg h1, hld]
            refine ⟨?_, ?_, fun h => absurd h h0⟩
            · rw [hres]
              simp
            · intro _
              exact ⟨"payload_not_dict", _, by rw [hres],
                Or.inr ⟨Or.inr (Or.inr (Or.inl rfl)), rfl⟩⟩
          | arr es =>
            have hres : parse_uart_line line =
                ("ERR", errPayload "payload_not_dict" (String.mk (pyStrip line.data))) := by
              rw [parse_uart_some line pr h0 hft, if_neg h1, hld]
            refine ⟨?_, ?_, fun h => absurd h h0⟩
            · rw [hres]
              simp
            · intro _
              exact ⟨"payload_not_dict", _, by rw [hres],
                Or.inr ⟨Or.inr (Or.inr (Or.inl rfl)), rfl⟩⟩

/-- Claim C6: for every payload dict (association list with distinct keys),
each of make_data_line, make_ack_line and make_info_line renders a frame
that parse_uart_line parses back to the same kind and an equal payload. -/
theorem make_parse_roundtrip (p : List (String × Json))
    (h : (p.map Prod.fst).Nodup) :
    parse_uart_line (make_data_line p) = ("DATA", .obj p) ∧
    parse_uart_line (make_ack_line p) = ("ACK", .obj p) ∧
    parse_uart_line (make_info_line p) = ("INFO", .obj p) :=
  ⟨parse_make_data_line p, parse_make_ack_line p, parse_make_info_line p⟩

/-- Witness for C6 at a concrete two-key payload. -/
theorem make_parse_roundtrip_witness :
    (([("flow", Json.num 150), ("valve", Json.str "open")].map Prod.fst).Nodup) ∧
    parse_uart_line (make_data_line [("flow", Json.num 150), ("valve", Json.str "open")])
      = ("DATA", .obj [("flow", Json.num 150), ("valve", Json.str "open")]) :=
  ⟨by decide, (make_parse_roundtrip _ (by decide)).1⟩

/-- Claim C7 (amended): tag matching is case-sensitive.  A frame tagged
with the canonical upper-case tag parses to its payload, while the same
frame tagged with the lower-case variant of the tag matches no entry of
the prefix map and is reported as ERR with error unknown_prefix. -/
theorem parse_tag_case_sensitive (p : List (String × Json)) :
    parse_uart_line ("@data " ++ dumps (.obj p) ++ "\n") =
      ("ERR", errPayload "unknown_prefix" ("@data " ++ dumps (.obj p))) ∧
    parse_uart_line (make_data_line p) = ("DATA", .obj p) := by
  refine ⟨?_, parse_make_data_line p⟩
  have h1 : ("@data " ++ dumps (.obj p) ++ "\n").data
      = ("@data ".data ++ dumpVal (.obj p)) ++ ['\n'] := by
    rw [String.data_append, String.data_append]
    rfl
  have hhead : ∀ c ∈ ("@data ".data ++ dumpVal (.obj p)).head?, pyWs c = false := by
    intro c hc
    have : ("@data ".data ++ dumpVal (.obj p)).head? = some '@' := rfl
    rw [this] at hc
    simp only [Option.mem_def, Option.some.injEq] at hc
    rw [← hc]
    rfl
  have hlast : ∀ c ∈ ("@data ".data ++ dumpVal (.obj p)).getLast?, pyWs c = false := by
    intro c hc
    have hshape : "@data ".data ++ dumpVal (.obj p)
        = ("@data ".data ++ '\x7b' :: dumpObj p) ++ ['\x7d'] := by
      simp [dumpVal]
    rw [hshape, List.getLast?_concat] at hc
    simp only [Option.mem_def, Option.some.injEq] at hc
    rw [← hc]
    rfl
  have hstrip : pyStrip ("@data " ++ dumps (.obj p) ++ "\n").data
      = "@data ".data ++ dumpVal (.obj p) := by
    rw [h1, pyStrip_append_nl _ hhead hlast]
  have h0 : ¬("@data ".data ++ dumpVal (.obj p)) = [] := by simp
  have hft : findTag ("@data ".data ++ dumpVal (.obj p)) = none := rfl
  simp only [parse_uart_line]
  rw [hstrip, if_neg h0, hft]
  rfl

/-- Claim C7 (counterexample): the concrete lower-case line is rejected as
unknown_prefix while its upper-case counterpart parses, so matching is not
case-insensitive. -/
theorem parse_tag_case_counterexample :
    parse_uart_line "@data \x7b\"a\":1\x7d" =
      ("ERR", errPayload "unknown_prefix" "@data \x7b\"a\":1\x7d") ∧
    parse_uart_line "@DATA \x7b\"a\":1\x7d" = ("DATA", .obj [("a", .num 1)]) ∧
    ("ERR" : String) ≠ "DATA" :=
  ⟨rfl, rfl, by decide⟩

/-- Witness for C5 on the empty line. -/
theorem parse_uart_line_err_shape_witness :
    pyStrip ("" : String).data = [] ∧
    parse_uart_line "" = ("ERR", errPayload "empty_line" "") :=
  ⟨rfl, (parse_uart_line_err_shape "").2.2 rfl⟩

/-- Claim C5 (counterexample): on the malformed payload of the line
"@DATA x" the error field is the string "json_parse_error: Expecting
value", which is none of the four bare reason names the claim lists. -/
theorem parse_uart_line_err_detail_counterexample :
    parse_uart_line "@DATA x" =
      ("ERR", errPayload "json_parse_error: Expecting value" "@DATA x") ∧
    ("json_parse_error: Expecting value" ≠ "unknown_prefix" ∧
      "json_parse_error: Expecting value" ≠ "missing_payload" ∧
      "json_parse_error: Expecting value" ≠ "json_parse_error" ∧
      "json_parse_error: Expecting value" ≠ "payload_not_dict") :=
  ⟨rfl, by decide, by decide, by decide, by decide⟩

/-! ## Rules engine claims -/

/-- If the cleanup interval has not elapsed, maybe_cleanup is the
identity. -/
theorem maybe_cleanup_idle (cfg : RulesConfig) (st : RulesState) (now : Int)
    (h : now - st.last_cleanup < cleanupInterval) :
    maybe_cleanup cfg st now = st := by
  simp only [maybe_cleanup]
  rw [if_pos h]

/-- Cleanup only ever drops seen-cid entries. -/
theorem maybe_cleanup_seen_sublist (cfg : RulesConfig) (st : RulesState) (now : Int) :
    (maybe_cleanup cfg st now).seen_cids.Sublist st.seen_cids := by
  simp only [maybe_cleanup]
  split
  · exact List.Sublist.refl _
  · exact List.filter_sublist _

/-- Cleanup only ever drops user entries. -/
theorem maybe_cleanup_user_sublist (cfg : RulesConfig) (st : RulesState) (now : Int) :
    (maybe_cleanup cfg st now).user_last_cmd.Sublist st.user_last_cmd := by
  simp only [maybe_cleanup]
  split
  · exact List.Sublist.refl _
  · exact List.filter_sublist _

/-- Cleanup never changes the global last-command time. -/
theorem maybe_cleanup_global (cfg : RulesConfig) (st : RulesState) (now : Int) :
    (maybe_cleanup cfg st now).global_last_cmd = st.global_last_cmd := by
  simp only [maybe_cleanup]
  split
  · rfl
  · rfl

/-- The gate chain either admits, marking the state, or rejects with a
nonempty reason and returns the (cleaned) state unchanged. -/
theorem gates_cases (cfg : RulesConfig) (s : RulesState) (now : Int) (cid user : String) :
    rulesDupGate cfg s now cid user
        = ((true, ""),
            { user_last_cmd := aupdate s.user_last_cmd user now
              global_last_cmd := now
              seen_cids := aupdate s.seen_cids cid (now + cfg.dedupe_ttl_s)
              last_cleanup := s.last_cleanup }) ∨
      (∃ r, r ≠ "" ∧ rulesDupGate cfg s now cid user = ((false, r), s)) := by
  unfold rulesDupGate rulesUserGate rulesGlobalGate rulesMark
  repeat' split
  all_goals first
    | exact Or.inl rfl
    | exact Or.inr ⟨"duplicate_cid", by decide, rfl⟩
    | exact Or.inr ⟨"cooldown_user", by decide, rfl⟩
    | exact Or.inr ⟨"cooldown_global", by decide, rfl⟩

/-- check_and_mark either admits with the marked state or rejects with a
nonempty reason and the cleaned state. -/
theorem check_and_mark_cases (cfg : RulesConfig) (st : RulesState) (now : Int)
    (cid user : String) :
    check_and_mark cfg st now cid user
        = ((true, ""),
            { user_last_cmd := aupdate (maybe_cleanup cfg st now).user_last_cmd user now
              global_last_cmd := now
              seen_cids := aupdate (maybe_cleanup cfg st now).seen_cids cid
                (now + cfg.dedupe_ttl_s)
              last_cleanup := (maybe_cleanup cfg st now).last_cleanup }) ∨
      (∃ r, r ≠ "" ∧
        check_and_mark cfg st now cid user = ((false, r), maybe_cleanup cfg st now)) := by
  simp only [check_and_mark]
  by_cases hl : cfg.lock = true
  · rw [if_pos hl]
    exact Or.inr ⟨"locked", by decide, rfl⟩
  · rw [if_neg hl]
    exact gates_cases cfg (maybe_cleanup cfg st now) now cid user

/-- Claim C1: with the lock flag set, check_and_mark rejects every command
with reason locked, whatever the cid, the user and the tracked state. -/
theorem check_and_mark_locked (cfg : RulesConfig) (st : RulesState) (now : Int)
    (cid user : String) (h : cfg.lock = true) :
    (check_and_mark cfg st now cid user).1 = (false, "locked") := by
  simp only [check_and_mark]
  rw [if_pos h]

/-- Witness for C1: a locked configuration rejects a command even with a
populated history. -/
theorem check_and_mark_locked_witness :
    (RulesConfig.mk true 3 1 60).lock = true ∧
    (check_and_mark (RulesConfig.mk true 3 1 60)
      (RulesState.mk [("u", 5)] 2 [("c", 9)] 0) 100 "c" "u").1 = (false, "locked") :=
  ⟨rfl, check_and_mark_locked _ _ _ _ _ rfl⟩

/-- Claim C2: on an unlocked, cooldown-free state, a first call admits and
records the cid with expiry now plus the dedupe TTL; a second call with
the same cid before that expiry (by any user) is rejected as
duplicate_cid; after the expiry, and once the cooldowns have passed, the
same cid is admitted again. -/
theorem check_and_mark_dedupe (cfg : RulesConfig) (st : RulesState)
    (now1 now2 now3 : Int) (cid user user2 : String)
    (hlock : cfg.lock = false)
    (hcl1 : now1 - st.last_cleanup < cleanupInterval)
    (hseen : alookup st.seen_cids cid = none)
    (huser : alookup st.user_last_cmd user = none)
    (hglob : cfg.cooldown_global_s ≤ now1 - st.global_last_cmd)
    (hcl2 : now2 - st.last_cleanup < cleanupInterval)
    (hdup : now2 < now1 + cfg.dedupe_ttl_s)
    (hcl3 : now3 - st.last_cleanup < cleanupInterval)
    (hexp : now1 + cfg.dedupe_ttl_s ≤ now3)
    (hucool : cfg.cooldown_user_s ≤ now3 - now1)
    (hgcool : cfg.cooldown_global_s ≤ now3 - now1) :
    (check_and_mark cfg st now1 cid user).1 = (true, "") ∧
    alookup (check_and_mark cfg st now1 cid user).2.seen_cids cid
      = some (now1 + cfg.dedupe_ttl_s) ∧
    (check_and_mark cfg (check_and_mark cfg st now1 cid user).2 now2 cid user2).1
      = (false, "duplicate_cid") ∧
    (check_and_mark cfg (check_and_mark cfg st now1 cid user).2 now3 cid user).1
      = (true, "") := by
  have hlock' : ¬(cfg.lock = true) := by
    rw [hlock]
    exact Bool.false_ne_true
  have hidle1 : maybe_cleanup cfg st now1 = st := maybe_cleanup_idle cfg st now1 hcl1
  have hr1 : check_and_mark cfg st now1 cid user =
      ((true, ""),
        { user_last_cmd := aupdate st.user_last_cmd user now1
          global_last_cmd := now1
          seen_cids := aupdate st.seen_cids cid (now1 + cfg.dedupe_ttl_s)
          last_cleanup := st.last_cleanup }) := by
    simp only [check_and_mark, hidle1]
    rw [if_neg hlock']
    simp only [rulesDupGate, hseen, rulesUserGate, huser, rulesGlobalGate]
    rw [if_neg (by omega)]
    rfl
  have ha : alookup (aupdate st.seen_cids cid (now1 + cfg.dedupe_ttl_s)) cid
      = some (now1 + cfg.dedupe_ttl_s) := alookup_aupdate_self _ _ _
  have hau : alookup (aupdate st.user_last_cmd user now1) user = some now1 :=
    alookup_aupdate_self _ _ _
  refine ⟨by rw [hr1], by rw [hr1]; exact ha, ?_, ?_⟩
  · rw [hr1]
    have hidle2 : maybe_cleanup cfg
        { user_last_cmd := aupdate st.user_last_cmd user now1
          global_last_cmd := now1
          seen_cids := aupdate st.seen_cids cid (now1 + cfg.dedupe_ttl_s)
          last_cleanup := st.last_cleanup } now2 = _ :=
      maybe_cleanup_idle cfg _ now2 (by exact hcl2)
    simp only [check_and_mark, hidle2]
    rw [if_neg hlock']
    simp only [rulesDupGate, ha]
    rw [if_pos hdup]
  · rw [hr1]
    have hidle3 : maybe_cleanup cfg
        { user_last_cmd := aupdate st.user_last_cmd user now1
          global_last_cmd := now1
          seen_cids := aupdate st.seen_cids cid (now1 + cfg.dedupe_ttl_s)
          last_cleanup := st.last_cleanup } now3 = _ :=
      maybe_cleanup_idle cfg _ now3 (by exact hcl3)
    simp only [check_and_mark, hidle3]
    rw [if_neg hlock']
    simp only [rulesDupGate, ha]
    rw [if_neg (by omega)]
    simp only [rulesUserGate, hau]
    rw [if_neg (by omega)]
    simp only [rulesGlobalGate]
    rw [if_neg (by omega)]
    rfl

/-- Witness for C2 at concrete times 100, 110, 125 with a 20-second TTL. -/
theorem check_and_mark_dedupe_witness :
    ((100 : Int) - 100 < cleanupInterval ∧
      alookup ([] : List (String × Int)) "c" = none ∧
      (1 : Int) ≤ 100 - 0 ∧ (110 : Int) < 100 + 20 ∧
      (100 : Int) + 20 ≤ 125 ∧ (3 : Int) ≤ 125 - 100) ∧
    (check_and_mark (RulesConfig.mk false 3 1 20)
      (RulesState.mk [] 0 [] 100) 100 "c" "u").1 = (true, "") ∧
    (check_and_mark (RulesConfig.mk false 3 1 20)
      (check_and_mark (RulesConfig.mk false 3 1 20)
        (RulesState.mk [] 0 [] 100) 100 "c" "u").2 110 "c" "v").1
      = (false, "duplicate_cid") ∧
    (check_and_mark (RulesConfig.mk false 3 1 20)
      (check_and_mark (RulesConfig.mk false 3 1 20)
        (RulesState.mk [] 0 [] 100) 100 "c" "u").2 125 "c" "u").1 = (true, "") := by
  have h := check_and_mark_dedupe (RulesConfig.mk false 3 1 20)
    (RulesState.mk [] 0 [] 100) 100 110 125 "c" "u" "v"
    rfl (by decide) rfl rfl (by decide) (by decide) (by decide) (by decide)
    (by decide) (by decide) (by decide)
  exact ⟨⟨by decide, rfl, by decide, by decide, by decide, by decide⟩,
    h.1, h.2.2.1, h.2.2.2⟩

/-- Claim C8: check_and_mark mutates the admission state exactly when it
admits.  An admitting call records the cid with expiry now plus the TTL
and advances the per-user and global timestamps; a rejecting call leaves
the state exactly as periodic cleanup left it, so no cid entry is added
(the seen map and user map are sublists of the pre-state maps) and the
global timestamp is unchanged. -/
theorem check_and_mark_admission_only (cfg : RulesConfig) (st : RulesState)
    (now : Int) (cid user : String) :
    ((check_and_mark cfg st now cid user).1.1 = true →
      (check_and_mark cfg st now cid user).2.seen_cids
        = aupdate (maybe_cleanup cfg st now).seen_cids cid (now + cfg.dedupe_ttl_s) ∧
      (check_and_mark cfg st now cid user).2.user_last_cmd
        = aupdate (maybe_cleanup cfg st now).user_last_cmd user now ∧
      (check_and_mark cfg st now cid user).2.global_last_cmd = now ∧
      alookup (check_and_mark cfg st now cid user).2.seen_cids cid
        = some (now + cfg.dedupe_ttl_s)) ∧
    ((check_and_mark cfg st now cid user).1.1 = false →
      (check_and_mark cfg st now cid user).2 = maybe_cleanup cfg st now ∧
      (check_and_mark cfg st now cid user).2.seen_cids.Sublist st.seen_cids ∧
      (check_and_mark cfg st now cid user).2.user_last_cmd.Sublist st.user_last_cmd ∧
      (check_and_mark cfg st now cid user).2.global_last_cmd = st.global_last_cmd) := by
  rcases check_and_mark_cases cfg st now cid user with h | ⟨r, hr, h⟩
  · constructor
    · intro _
      rw [h]
      exact ⟨rfl, rfl, rfl, alookup_aupdate_self _ _ _⟩
    · intro hfalse
      rw [h] at hfalse
      simp at hfalse
  · constructor
    · intro htrue
      rw [h] at htrue
      simp at htrue
    · intro _
      refine ⟨by rw [h], ?_, ?_, ?_⟩
      · rw [h]
        exact maybe_cleanup_seen_sublist cfg st now
      · rw [h]
        exact maybe_cleanup_user_sublist cfg st now
      · rw [h]
        exact maybe_cleanup_global cfg st now

/-- Witness for C8: a concrete admitting call mutates as stated and a
concrete rejected (locked) call leaves the cleaned state unchanged. -/
theorem check_and_mark_admission_only_witness :
    ((check_and_mark (RulesConfig.mk false 3 1 60)
        (RulesState.mk [] 0 [] 100) 100 "c" "u").1.1 = true ∧
      alookup (check_and_mark (RulesConfig.mk false 3 1 60)
        (RulesState.mk [] 0 [] 100) 100 "c" "u").2.seen_cids "c" = some 160) ∧
    ((check_and_mark (RulesConfig.mk true 3 1 60)
        (RulesState.mk [] 0 [] 100) 100 "c" "u").1.1 = false ∧
      (check_and_mark (RulesConfig.mk true 3 1 60)
        (RulesState.mk [] 0 [] 100) 100 "c" "u").2
        = maybe_cleanup (RulesConfig.mk true 3 1 60) (RulesState.mk [] 0 [] 100) 100) :=
  ⟨⟨by decide,
    ((check_and_mark_admission_only (RulesConfig.mk false 3 1 60)
      (RulesState.mk [] 0 [] 100) 100 "c" "u").1 (by decide)).2.2.2⟩,
   ⟨by decide,
    ((check_and_mark_admission_only (RulesConfig.mk true 3 1 60)
      (RulesState.mk [] 0 [] 100) 100 "c" "u").2 (by decide)).1⟩⟩

/-! ## The correlation-id map claims -/

/-- Two distinct keys cannot map to the same value when the stored values
are pairwise distinct. -/
theorem alookup_ne_of_nodup_snd (l : List (String × Nat)) (k1 k2 : String) (v : Nat)
    (hnd : (l.map Prod.snd).Nodup) (hne : k1 ≠ k2)
    (h1 : alookup l k1 = some v) (h2 : alookup l k2 = some v) : False := by
  have m1 := alookup_mem l k1 v h1
  have m2 := alookup_mem l k2 v h2
  have heq := List.inj_on_of_nodup_map hnd m1 m2 rfl
  exact hne (congrArg Prod.fst heq)

/-- With pairwise-distinct ids, the reverse scan recovers the key that maps
to a stored id. -/
theorem find_by_snd (l : List (String × Nat)) (cid : String) (i : Nat)
    (hnd : (l.map Prod.snd).Nodup) (h : alookup l cid = some i) :
    (l.find? (fun e => (e.2 : Int) == (i : Int))).map (fun e => e.1) = some cid := by
  have hm := alookup_mem l cid i h
  rcases hf : l.find? (fun e => (e.2 : Int) == (i : Int)) with _ | e
  · rw [List.find?_eq_none] at hf
    exact absurd (by simp : ((((cid, i) : String × Nat).2 : Int) == (i : Int)) = true)
      (by simpa using hf _ hm)
  · have hpe := List.find?_some hf
    have he2 : e.2 = i := by
      have hcast : (e.2 : Int) = (i : Int) := by simpa using hpe
      exact Int.ofNat_inj.mp hcast
    have hmem : e ∈ l := List.mem_of_find?_eq_some hf
    have heq : e = (cid, i) := List.inj_on_of_nodup_map hnd hmem hm (by simp [he2])
    rw [hf, heq]
    rfl

/-- Claim C9: on any reachable mapping state (ids are exactly 1..n in
insertion order and the counter is n+1), _cid_to_numeric_id is stable
under repetition, preserves the invariant, only appends, gives distinct
cids distinct ids, hands a fresh cid an id strictly above every stored id,
and _numeric_id_to_cid inverts it. -/
theorem cid_map_bijection (m : CidMap) (cid cid2 : String)
    (hwf : m.entries.map Prod.snd = List.range' 1 m.entries.length ∧
      m.counter = m.entries.length + 1) :
    cid_to_numeric_id cid (cid_to_numeric_id cid m).2
        = ((cid_to_numeric_id cid m).1, (cid_to_numeric_id cid m).2) ∧
    ((cid_to_numeric_id cid m).2.entries.map Prod.snd
        = List.range' 1 (cid_to_numeric_id cid m).2.entries.length ∧
      (cid_to_numeric_id cid m).2.counter
        = (cid_to_numeric_id cid m).2.entries.length + 1) ∧
    (∃ tl, (cid_to_numeric_id cid m).2.entries = m.entries ++ tl) ∧
    (cid2 ≠ cid →
      (cid_to_numeric_id cid2 (cid_to_numeric_id cid m).2).1
        ≠ (cid_to_numeric_id cid m).1) ∧
    (alookup m.entries cid = none →
      ∀ i ∈ m.entries.map Prod.snd, i < (cid_to_numeric_id cid m).1) ∧
    numeric_id_to_cid ((cid_to_numeric_id cid m).1 : Int) (cid_to_numeric_id cid m).2
      = some cid := by
  obtain ⟨hwf1, hwf2⟩ := hwf
  have hnd : (m.entries.map Prod.snd).Nodup := by
    rw [hwf1]
    exact @List.nodup_range' 1 m.entries.length 1 (by decide)
  have hlt : ∀ i ∈ m.entries.map Prod.snd, i < m.counter := by
    intro i hi
    rw [hwf1, List.mem_range'_1] at hi
    omega
  rcases hl : alookup m.entries cid with _ | i
  · have hstep : cid_to_numeric_id cid m
        = (m.counter, ⟨m.entries ++ [(cid, m.counter)], m.counter + 1⟩) := by
      simp [cid_to_numeric_id, hl]
    have hl1 : alookup (m.entries ++ [(cid, m.counter)]) cid = some m.counter := by
      rw [alookup_append_right _ _ _ hl]
      simp [alookup]
    refine ⟨?_, ?_, ?_, ?_, ?_, ?_⟩
    · rw [hstep]
      simp [cid_to_numeric_id, hl1]
    · rw [hstep]
      constructor
      · show (m.entries ++ [(cid, m.counter)]).map Prod.snd
            = List.range' 1 (m.entries ++ [(cid, m.counter)]).length
        rw [List.map_append, hwf1, List.length_append]
        have hcat := @List.range'_concat 1 1 m.entries.length
        simp only [one_mul] at hcat
        simp only [List.map_cons, List.map_nil, List.length_cons, List.length_nil]
        rw [hwf2]
        rw [Nat.add_comm m.entries.length 1] at hcat ⊢
        rw [hcat]
      · show m.counter + 1 = (m.entries ++ [(cid, m.counter)]).length + 1
        rw [List.length_append, hwf2]
        simp
    · exact ⟨[(cid, m.counter)], by rw [hstep]⟩
    · intro hne
      rw [hstep]
      rcases hl2 : alookup m.entries cid2 with _ | j
      · have hl2' : alookup (m.entries ++ [(cid, m.counter)]) cid2 = none := by
          rw [alookup_append_right _ _ _ hl2]
          simp [alookup, hne.symm]
        show (cid_to_numeric_id cid2 ⟨m.entries ++ [(cid, m.counter)], m.counter + 1⟩).1
            ≠ m.counter
        simp [cid_to_numeric_id, hl2']
      · have hl2' : alookup (m.entries ++ [(cid, m.counter)]) cid2 = some j :=
          alookup_append_left _ _ _ _ hl2
        show (cid_to_numeric_id cid2 ⟨m.entries ++ [(cid, m.counter)], m.counter + 1⟩).1
            ≠ m.counter
        have hj : j < m.counter :=
          hlt j (List.mem_map_of_mem Prod.snd (alookup_mem _ _ _ hl2))
        simp [cid_to_numeric_id, hl2']
        omega
    · intro _ i hi
      rw [hstep]
      exact hlt i hi
    · rw [hstep]
      show (((m.entries ++ [(cid, m.counter)]).find?
        (fun e => (e.2 : Int) == (m.counter : Int))).map (fun e => e.1)) = some cid
      rw [List.find?_append]
      have hnone : m.entries.find? (fun e => (e.2 : Int) == (m.counter : Int)) = none := by
        rw [List.find?_eq_none]
        intro e he hc
        have he2 : e.2 = m.counter := by
          have hcast : (e.2 : Int) = (m.counter : Int) := by simpa using hc
          exact Int.ofNat_inj.mp hcast
        have := hlt e.2 (List.mem_map_of_mem Prod.snd he)
        omega
      rw [hnone]
      simp [List.find?]
  · have hstep : cid_to_numeric_id cid m = (i, m) := by
      simp [cid_to_numeric_id, hl]
    refine ⟨?_, ?_, ?_, ?_, ?_, ?_⟩
    · rw [hstep]
      simp [cid_to_numeric_id, hl]
    · rw [hstep]
      exact ⟨hwf1, hwf2⟩
    · exact ⟨[], by rw [hstep]; simp⟩
    · intro hne
      rw [hstep]
      rcases hl2 : alookup m.entries cid2 with _ | j
      · show (cid_to_numeric_id cid2 m).1 ≠ i
        have hi : i < m.counter :=
          hlt i (List.mem_map_of_mem Prod.snd (alookup_mem _ _ _ hl))
        simp [cid_to_numeric_id, hl2]
        omega
      · show (cid_to_numeric_id cid2 m).1 ≠ i
        simp [cid_to_numeric_id, hl2]
        intro hcontr
        subst hcontr
        exact alookup_ne_of_nodup_snd m.entries cid2 cid j hnd hne hl2 hl
    · intro hnone
      cases hnone
    · rw [hstep]
      exact find_by_snd m.entries cid i hnd hl

/-- Witness for C9 on a well-formed two-entry map. -/
theorem cid_map_bijection_witness :
    (([("a", 1), ("b", 2)] : List (String × Nat)).map Prod.snd
        = List.range' 1 ([("a", 1), ("b", 2)] : List (String × Nat)).length ∧
      (CidMap.mk [("a", 1), ("b", 2)] 3).counter
        = ([("a", 1), ("b", 2)] : List (String × Nat)).length + 1) ∧
    numeric_id_to_cid ((cid_to_numeric_id "b" (CidMap.mk [("a", 1), ("b", 2)] 3)).1 : Int)
      (cid_to_numeric_id "b" (CidMap.mk [("a", 1), ("b", 2)] 3)).2 = some "b" :=
  ⟨⟨by decide, by decide⟩,
    (cid_map_bijection (CidMap.mk [("a", 1), ("b", 2)] 3) "b" "c"
      ⟨by decide, by decide⟩).2.2.2.2.2⟩

/-! ## The ack translation claim -/

/-- Keys absent from the extraction list are absent from the extracted
entries. -/
theorem alookup_keyextract_none (ack : List (String × Json)) (ks : List String)
    (k : String) (hk : ¬k ∈ ks) :
    alookup (ks.filterMap (fun k2 => (alookup ack k2).map (fun v => (k2, v)))) k
      = none := by
  induction ks with
  | nil => rfl
  | cons a t ih =>
    have hka : ¬(a = k) := fun h => hk (h ▸ List.mem_cons_self a t)
    have hkt : ¬k ∈ t := fun h => hk (List.mem_cons_of_mem a h)
    rcases h : alookup ack a with _ | v
    · simpa [List.filterMap_cons, h] using ih hkt
    · simp only [List.filterMap_cons, h, Option.map_some]
      show alookup ((a, v) :: _) k = none
      simp only [alookup, hka, if_false]
      exact ih hkt

/-- Extracted entries look up to the original values for listed keys. -/
theorem alookup_keyextract (ack : List (String × Json)) (ks : List String)
    (k : String) (hk : k ∈ ks) (hnd : ks.Nodup) :
    alookup (ks.filterMap (fun k2 => (alookup ack k2).map (fun v => (k2, v)))) k
      = alookup ack k := by
  induction ks with
  | nil => cases hk
  | cons a t ih =>
    have hnd' : t.Nodup := (List.nodup_cons.mp hnd).2
    by_cases hak : a = k
    · subst hak
      have hat : ¬a ∈ t := (List.nodup_cons.mp hnd).1
      rcases h : alookup ack a with _ | v
      · simpa [List.filterMap_cons, h] using alookup_keyextract_none ack t a hat
      · simp only [List.filterMap_cons, h, Option.map_some]
        show alookup ((a, v) :: _) a = some v
        simp [alookup]
    · have hkt : k ∈ t := by
        rcases List.mem_cons.mp hk with h | h
        · exact absurd h.symm hak
        · exact h
      rcases h : alookup ack a with _ | v
      · simpa [List.filterMap_cons, h] using ih hkt hnd'
      · simp only [List.filterMap_cons, h, Option.map_some]
        show alookup ((a, v) :: _) k = alookup ack k
        simp only [alookup, hak, if_false]
        exact ih hkt hnd'

/-- Claim C10: translate_coordinator_ack builds the bus ack: cid is the
mapped correlation id for the numeric id field (default 0), falling back
to the synthesized id_N string; ok and msg carry over as ok and reason
with their defaults; exactly the five optional controller fields are
preserved when present; nothing else appears. -/
theorem translate_ack_fields (m : CidMap) (ack : List (String × Json)) (n : Int)
    (hid : (alookup ack "id").getD (.num 0) = .num n) :
    ((∀ c, numeric_id_to_cid n m = some c →
        alookup (translate_coordinator_ack m ack) "cid" = some (.str c)) ∧
      (numeric_id_to_cid n m = none →
        alookup (translate_coordinator_ack m ack) "cid"
          = some (.str ("id_" ++ intDecStr n)))) ∧
    alookup (translate_coordinator_ack m ack) "ok"
      = some ((alookup ack "ok").getD (.bool false)) ∧
    alookup (translate_coordinator_ack m ack) "reason"
      = some ((alookup ack "msg").getD (.str "")) ∧
    (∀ k, k ∈ ["valve", "mode", "valve_path", "valve_known", "valve_node_id"] →
        alookup (translate_coordinator_ack m ack) k = alookup ack k) ∧
    (∀ k, k ≠ "cid" → k ≠ "ok" → k ≠ "reason" →
        ¬k ∈ ["valve", "mode", "valve_path", "valve_known", "valve_node_id"] →
        alookup (translate_coordinator_ack m ack) k = none) := by
  have hout : translate_coordinator_ack m ack
      = [("cid", Json.str (match numeric_id_to_cid n m with
            | some c => c
            | none => "id_" ++ intDecStr n)),
          ("ok", (alookup ack "ok").getD (.bool false)),
          ("reason", (alookup ack "msg").getD (.str ""))] ++
        (["valve", "mode", "valve_path", "valve_known", "valve_node_id"].filterMap
          (fun k => (alookup ack k).map (fun v => (k, v)))) := by
    simp only [translate_coordinator_ack, hid]
    rcases hf : numeric_id_to_cid n m with _ | c
    · simp [hf]
    · simp [hf]
  refine ⟨⟨?_, ?_⟩, ?_, ?_, ?_, ?_⟩
  · intro c hc
    rw [hout, hc]
    simp [alookup]
  · intro hc
    rw [hout, hc]
    simp [alookup]
  · rw [hout]
    simp [alookup]
  · rw [hout]
    simp [alookup]
  · intro k hk
    fin_cases hk
    · rw [hout]
      show alookup _ "valve" = _
      simp only [List.cons_append, List.nil_append, alookup]
      rw [if_neg (by decide), if_neg (by decide), if_neg (by decide)]
      exact alookup_keyextract ack _ _ (by decide) (by decide)
    · rw [hout]
      show alookup _ "mode" = _
      simp only [List.cons_append, List.nil_append, alookup]
      rw [if_neg (by decide), if_neg (by decide), if_neg (by decide)]
      exact alookup_keyextract ack _ _ (by decide) (by decide)
    · rw [hout]
      show alookup _ "valve_path" = _
      simp only [List.cons_append, List.nil_append, alookup]
      rw [if_neg (by decide), if_neg (by decide), if_neg (by decide)]
      exact alookup_keyextract ack _ _ (by decide) (by decide)
    · rw [hout]
      show alookup _ "valve_known" = _
      simp only [List.cons_append, List.nil_append, alookup]
      rw [if_neg (by decide), if_neg (by decide), if_neg (by decide)]
      exact alookup_keyextract ack _ _ (by decide) (by decide)
    · rw [hout]
      show alookup _ "valve_node_id" = _
      simp only [List.cons_append, List.nil_append, alookup]
      rw [if_neg (by decide), if_neg (by decide), if_neg (by decide)]
      exact alookup_keyextract ack _ _ (by decide) (by decide)
  · intro k h1 h2 h3 h4
    rw [hout]
    simp only [List.cons_append, List.nil_append, alookup]
    rw [if_neg (fun h => h1 h.symm), if_neg (fun h => h2 h.symm),
      if_neg (fun h => h3 h.symm)]
    exact alookup_keyextract_none ack _ k h4

/-- Witness for C10 on a mapped id with one preserved extra field. -/
theorem translate_ack_fields_witness :
    (alookup [("id", Json.num 7), ("ok", Json.bool true), ("msg", Json.str "done"),
        ("valve", Json.str "open")] "id").getD (.num 0) = Json.num 7 ∧
    alookup (translate_coordinator_ack (CidMap.mk [("abc", 7)] 8)
        [("id", Json.num 7), ("ok", Json.bool true), ("msg", Json.str "done"),
          ("valve", Json.str "open")]) "cid" = some (Json.str "abc") :=
  ⟨rfl, (translate_ack_fields (CidMap.mk [("abc", 7)] 8)
      [("id", Json.num 7), ("ok", Json.bool true), ("msg", Json.str "done"),
        ("valve", Json.str "open")] 7 rfl).1.1 "abc" rfl⟩

/-! ## The ack correlator and handler claims -/

/-- After any wait_for_ack call, the waiter table holds no entry for the
cid: the entry is always popped before returning. -/
theorem wait_for_ack_removes (pend : List (String × Option AckMsg)) (cid : String)
    (arrival : Option AckMsg) :
    alookup (wait_for_ack pend cid arrival).2 cid = none := by
  rcases arrival with _ | a
  · exact alookup_aremove_self _ _
  · simp only [wait_for_ack]
    rcases hE : alookup ((ack_router_resolve (aupdate pend cid none) cid a).2) cid
      with _ | res
    · exact alookup_aremove_self _ _
    · exact alookup_aremove_self _ _

/-- A resolve that runs while the waiter is registered delivers its
payload. -/
theorem wait_for_ack_delivers (pend : List (String × Option AckMsg)) (cid : String)
    (a : AckMsg) :
    wait_for_ack pend cid (some a)
      = (some a, aremove (aupdate (aupdate pend cid none) cid (some a)) cid) := by
  simp only [wait_for_ack, ack_router_resolve, alookup_aupdate_self]

/-- Claim C3: when no matching resolve arrives before the timeout, the
handler publishes exactly one acknowledgment and its reason is timeout;
and after any wait_for_ack call the correlator table no longer contains an
entry for the cid. -/
theorem handler_timeout_single_ack (cfg : RulesConfig) (now : Int) (rs : RulesState)
    (cache : StateCache) (cm : CidMap) (pend : List (String × Option AckMsg))
    (payload : List (String × Json)) (c u : String)
    (hcid : alookup payload "cid" = some (.str c))
    (huser : alookup payload "by" = some (.str u))
    (hv : (validate_cmd_payload payload).1 = true)
    (hr : (check_and_mark cfg rs now c u).1.1 = true) :
    (on_mqtt_message cfg now rs cache cm pend (some payload) true none).pubs
      = [Pub.ackPub (.str c) (.bool false) (.str "timeout") now] ∧
    ((on_mqtt_message cfg now rs cache cm pend (some payload) true none).pubs.filter
      isAckPub).length = 1 ∧
    (∀ (pend2 : List (String × Option AckMsg)) (cid2 : String)
      (arrival2 : Option AckMsg),
      alookup (wait_for_ack pend2 cid2 arrival2).2 cid2 = none) := by
  have hpubs : (on_mqtt_message cfg now rs cache cm pend (some payload) true none).pubs
      = [Pub.ackPub (.str c) (.bool false) (.str "timeout") now] := by
    simp [on_mqtt_message, hcid, huser, hv, hr, wait_for_ack]
  exact ⟨hpubs, by rw [hpubs]; rfl,
    fun pend2 cid2 arrival2 => wait_for_ack_removes pend2 cid2 arrival2⟩

/-- Witness for C3 on a concrete admitted command that times out. -/
theorem handler_timeout_single_ack_witness :
    alookup [("cid", Json.str "c1"), ("value", Json.str "ON"), ("by", Json.str "u")]
      "cid" = some (.str "c1") ∧
    (on_mqtt_message (RulesConfig.mk false 3 1 60) 100 (RulesState.mk [] 0 [] 100)
      (StateCache.mk 0 0 "closed" "auto" "" false "" false 0) cidMapInit []
      (some [("cid", Json.str "c1"), ("value", Json.str "ON"), ("by", Json.str "u")])
      true none).pubs
      = [Pub.ackPub (.str "c1") (.bool false) (.str "timeout") 100] :=
  ⟨rfl, (handler_timeout_single_ack (RulesConfig.mk false 3 1 60) 100
    (RulesState.mk [] 0 [] 100)
    (StateCache.mk 0 0 "closed" "auto" "" false "" false 0) cidMapInit []
    [("cid", Json.str "c1"), ("value", Json.str "ON"), ("by", Json.str "u")]
    "c1" "u" rfl rfl (by decide) (by decide)).1⟩

/-- Claim C4: on an admitted, written command the handler updates the
cached valve to the commanded value and publishes the retained state
(carrying that value) before the ack exactly when the received ack is
truthy on ok; with a falsy ok, a timeout, a failed write, a rules
rejection, or an invalid payload, the cache is left unchanged. -/
theorem handler_state_update_iff_ok (cfg : RulesConfig) (now : Int) (rs : RulesState)
    (cache : StateCache) (cm : CidMap) (pend : List (String × Option AckMsg))
    (payload : List (String × Json)) (c v u : String) (ackp : AckMsg)
    (hcid : alookup payload "cid" = some (.str c))
    (hval : alookup payload "value" = some (.str v))
    (huser : alookup payload "by" = some (.str u))
    (hv : (validate_cmd_payload payload).1 = true)
    (hr : (check_and_mark cfg rs now c u).1.1 = true) :
    (jsonTruthy ((alookup ackp "ok").getD (.bool false)) = true →
      (on_mqtt_message cfg now rs cache cm pend (some payload) true (some ackp)).cache
        = { cache with valve := v, updated_at := now } ∧
      (on_mqtt_message cfg now rs cache cm pend (some payload) true (some ackp)).pubs
        = [Pub.statePub { cache with valve := v, updated_at := now },
            Pub.ackPub (.str c) ((alookup ackp "ok").getD (.bool false))
              ((alookup ackp "reason").getD (.str "")) now]) ∧
    (jsonTruthy ((alookup ackp "ok").getD (.bool false)) = false →
      (on_mqtt_message cfg now rs cache cm pend (some payload) true (some ackp)).cache
        = cache ∧
      (on_mqtt_message cfg now rs cache cm pend (some payload) true (some ackp)).pubs
        = [Pub.ackPub (.str c) ((alookup ackp "ok").getD (.bool false))
            ((alookup ackp "reason").getD (.str "")) now]) ∧
    (on_mqtt_message cfg now rs cache cm pend (some payload) true none).cache = cache ∧
    (∀ (arr : Option AckMsg),
      (on_mqtt_message cfg now rs cache cm pend (some payload) false arr).cache
        = cache) ∧
    (∀ (rs2 : RulesState), (check_and_mark cfg rs2 now c u).1.1 = false →
      (on_mqtt_message cfg now rs2 cache cm pend (some payload) true (some ackp)).cache
        = cache) ∧
    (∀ (payload2 : List (String × Json)) (w : Bool) (arr : Option AckMsg),
      (validate_cmd_payload payload2).1 = false →
      (on_mqtt_message cfg now rs cache cm pend (some payload2) w arr).cache = cache) := by
  refine ⟨?_, ?_, ?_, ?_, ?_, ?_⟩
  · intro hok
    constructor
    · simp [on_mqtt_message, hcid, hval, huser, hv, hr, wait_for_ack_delivers, hok]
    · simp [on_mqtt_message, hcid, hval, huser, hv, hr, wait_for_ack_delivers, hok]
  · intro hok
    constructor
    · simp [on_mqtt_message, hcid, hval, huser, hv, hr, wait_for_ack_delivers, hok]
    · simp [on_mqtt_message, hcid, hval, huser, hv, hr, wait_for_ack_delivers, hok]
  · simp [on_mqtt_message, hcid, hval, huser, hv, hr, wait_for_ack]
  · intro arr
    simp [on_mqtt_message, hcid, hval, huser, hv, hr]
  · intro rs2 hrej
    simp [on_mqtt_message, hcid, hval, huser, hv, hrej]
  · intro payload2 w arr hbad
    simp [on_mqtt_message, hbad]

/-- Witness for C4: with an ok=true ack the valve value is cached and the
state snapshot precedes the ack. -/
theorem handler_state_update_iff_ok_witness :
    jsonTruthy ((alookup [("ok", Json.bool true)] "ok").getD (.bool false)) = true ∧
    (on_mqtt_message (RulesConfig.mk false 3 1 60) 100 (RulesState.mk [] 0 [] 100)
      (StateCache.mk 0 0 "closed" "auto" "" false "" false 0) cidMapInit []
      (some [("cid", Json.str "c1"), ("value", Json.str "ON"), ("by", Json.str "u")])
      true (some [("ok", Json.bool true)])).pubs
      = [Pub.statePub (StateCache.mk 0 0 "ON" "auto" "" false "" false 100),
          Pub.ackPub (.str "c1") (Json.bool true) (Json.str "") 100] :=
  ⟨rfl, ((handler_state_update_iff_ok (RulesConfig.mk false 3 1 60) 100
    (RulesState.mk [] 0 [] 100)
    (StateCache.mk 0 0 "closed" "auto" "" false "" false 0) cidMapInit []
    [("cid", Json.str "c1"), ("value", Json.str "ON"), ("by", Json.str "u")]
    "c1" "ON" "u" [("ok", Json.bool true)]
    rfl rfl rfl (by decide) (by decide)).1 rfl).2⟩

end Wfms
